import Mathlib

/-!
Verification of the `rotate-aws-key` CLI (a tool that rotates AWS IAM access
keys for local credential profiles).  The TypeScript source is shallowly
embedded: JavaScript strings become `List Char`, the two regular expressions
used by the tool (`^\[NAME\]\s*.+\s*.+$` with the `m` flag, and
`^AWS_ACCESS_KEY_ID=.*$` / `^AWS_SECRET_ACCESS_KEY=.*$`) are interpreted by a
small backtracking matcher with JavaScript semantics, and the interactive
`run` entry point becomes a state-threading function that records a trace of
the externally visible calls (IAM create/delete, credentials-file and env-file
reads and writes, log messages).
-/

/-- JavaScript strings are modelled as lists of characters. -/
abbrev Str := List Char

/-- JavaScript line terminators (`\n`, `\r`, U+2028, U+2029): the characters
`^`/`$` anchor around in multiline mode and that `.` refuses to match. -/
def isLineTerm (c : Char) : Bool :=
  c = '\n' || c = '\r' || c = '\u2028' || c = '\u2029'

/-- JavaScript `\s` character class. -/
def isJsWs (c : Char) : Bool :=
  c = ' ' || c = '\t' || c = '\n' || c = '\r' || c = '\x0b' || c = '\x0c' ||
  c = '\xa0' || c = '\u1680' || ('\u2000' ≤ c && c ≤ '\u200a') ||
  c = '\u2028' || c = '\u2029' || c = '\u202f' || c = '\u205f' ||
  c = '\u3000' || c = '\ufeff'

/-- Single-character regex atoms occurring in the tool's patterns: a literal
character, `.` (any char except a line terminator), and the class `\s`. -/
inductive RAtom where
  | lit : Char → RAtom
  | dot : RAtom
  | wsp : RAtom
deriving DecidableEq

/-- A pattern element: an atom, or an atom under a greedy `*` or `+`. -/
inductive RNode where
  | once : RAtom → RNode
  | star : RAtom → RNode
  | plus : RAtom → RNode
deriving DecidableEq

def atomTest : RAtom → Char → Bool
  | .lit a, c => a = c
  | .dot, c => !isLineTerm c
  | .wsp, c => isJsWs c

/-- Length of the maximal prefix of `s` whose characters all satisfy atom `a`:
the amount a greedy `a*` consumes before backtracking begins. -/
def maxRun (a : RAtom) : Str → Nat
  | [] => 0
  | c :: s => if atomTest a c then maxRun a s + 1 else 0

/-- Backtracking driver for a greedy quantifier: try consuming `n` characters,
then `n - 1`, …, down to `0`, returning the first success.  This is exactly
the order in which a backtracking engine revisits a greedy single-character
quantifier. -/
def tryFrom (cont : Nat → Option α) : Nat → Option α
  | 0 => cont 0
  | n + 1 => (cont (n + 1)).orElse fun _ => tryFrom cont n

/-- Match a sequence of pattern elements against `s`, with continuation `k`
applied to the unconsumed suffix (the continuation implements the trailing
`$` anchor).  Greedy quantifiers backtrack longest-first, as in JavaScript. -/
def matchSeq : List RNode → Str → (Str → Option Str) → Option Str
  | [], s, k => k s
  | .once _ :: _, [], _ => none
  | .once a :: ns, c :: s, k => if atomTest a c then matchSeq ns s k else none
  | .star a :: ns, s, k => tryFrom (fun j => matchSeq ns (s.drop j) k) (maxRun a s)
  | .plus _ :: _, [], _ => none
  | .plus a :: ns, c :: s, k =>
      if atomTest a c then tryFrom (fun j => matchSeq ns (s.drop j) k) (maxRun a s)
      else none

/-- The `$` anchor in multiline mode: succeeds at the end of input or just
before a line terminator, consuming nothing. -/
def endAnchor (s : Str) : Option Str :=
  match s with
  | [] => some []
  | c :: _ => if isLineTerm c then some s else none

/-- Scan for the leftmost match of `^<nodes>$` (multiline): try each position
that is the start of the input or follows a line terminator; on success return
`(text before the match, matched text, text after the match)`.  `pre` is the
reversed already-scanned prefix and `bol` says whether the current position is
a beginning-of-line position. -/
def searchFrom (ns : List RNode) : Str → Str → Bool → Option (Str × Str × Str)
  | pre, [], bol =>
    if bol then
      match matchSeq ns [] endAnchor with
      | some rest => some (pre.reverse, [], rest)
      | none => none
    else none
  | pre, c :: s', bol =>
    if bol then
      match matchSeq ns (c :: s') endAnchor with
      | some rest =>
          some (pre.reverse, (c :: s').take ((c :: s').length - rest.length), rest)
      | none => searchFrom ns (c :: pre) s' (isLineTerm c)
    else searchFrom ns (c :: pre) s' (isLineTerm c)

/-- JavaScript replacement-string semantics: `$$`, `$&`, `` $` `` and `$'`
are substituted (the pattern has no capture groups, so `$<digit>` stays
literal, as in JavaScript). -/
def dollarSubst (pre m suf : Str) : Str → Str
  | [] => []
  | [c] => [c]
  | c :: d :: r =>
    if c = '$' then
      if d = '$' then '$' :: dollarSubst pre m suf r
      else if d = '&' then m ++ dollarSubst pre m suf r
      else if d = '\x60' then pre ++ dollarSubst pre m suf r
      else if d = '\x27' then suf ++ dollarSubst pre m suf r
      else c :: dollarSubst pre m suf (d :: r)
    else c :: dollarSubst pre m suf (d :: r)

/-- `String.prototype.replace` with a non-global multiline regex
`^<nodes>$` and a replacement string: replace the leftmost match, or return
the string unchanged if there is none. -/
def jsReplaceOnce (ns : List RNode) (repl : Str) (s : Str) : Str :=
  ((searchFrom ns [] s true).map fun pms =>
    pms.1 ++ dollarSubst pms.1 pms.2.1 pms.2.2 repl ++ pms.2.2).getD s

/-- Characters with a special meaning in a JavaScript regular expression. -/
def metaChar (c : Char) : Bool :=
  c = '.' || c = '*' || c = '+' || c = '?' || c = '^' || c = '$' ||
  c = '(' || c = ')' || c = '[' || c = ']' || c = '\x7b' || c = '\x7d' ||
  c = '|' || c = '\\'

/-- One character of the profile name, as it behaves when spliced (unescaped)
into the pattern: `.` becomes the wildcard atom, a plain character a literal.
Names containing other metacharacters are outside the modelled regex
fragment, so compilation declines (`none`); no theorem below concerns them. -/
def compileChar (c : Char) : Option RNode :=
  if c = '.' then some (.once .dot)
  else if metaChar c then none
  else some (.once (.lit c))

def compileName : Str → Option (List RNode)
  | [] => some []
  | c :: n => do
    let x ← compileChar c
    let xs ← compileName n
    pure (x :: xs)

/-- The node sequence of `new RegExp("^\\[" + name + "\\]\\s*.+\\s*.+$", 'm')`
as built by `replaceCrendentials`. -/
def sectionPattern (name : Str) : Option (List RNode) :=
  (compileName name).map fun nn =>
    .once (.lit '[') :: nn ++
      [.once (.lit ']'), .star .wsp, .plus .dot, .star .wsp, .plus .dot]

/-- The template string `` `[${p}]\naws_access_key_id=${id}\naws_secret_access_key=${sec}` ``. -/
def newDefaultProfile (name accessKeyId accessKeySecret : Str) : Str :=
  '[' :: name ++ ']' :: '\n' :: "aws_access_key_id=".data ++ accessKeyId ++
    '\n' :: "aws_secret_access_key=".data ++ accessKeySecret

/-- Content transformation performed by `replaceCrendentials` on the
credentials file: replace the leftmost (multiline) match of
`^\[<name>\]\s*.+\s*.+$` by the new profile block.  Names containing
unmodelled regex metacharacters fall outside the embedding (see
`compileChar`). -/
def replaceCrendentials (name accessKeyId accessKeySecret file : Str) : Str :=
  ((sectionPattern name).map fun ns =>
    jsReplaceOnce ns (newDefaultProfile name accessKeyId accessKeySecret) file).getD file

/-- Nodes of `^KEY=.*$` for a literal key, as used on the env file. -/
def envKeyPattern (key : Str) : List RNode :=
  key.map (fun c => .once (.lit c)) ++ [.star .dot]

/-- Content transformation `replaceCrendentials` performs on the env file:
substitute the `AWS_ACCESS_KEY_ID=` line, then the `AWS_SECRET_ACCESS_KEY=`
line. -/
def replaceEnvContent (accessKeyId accessKeySecret c : Str) : Str :=
  let c1 := jsReplaceOnce (envKeyPattern "AWS_ACCESS_KEY_ID=".data)
      ("AWS_ACCESS_KEY_ID=".data ++ accessKeyId) c
  jsReplaceOnce (envKeyPattern "AWS_SECRET_ACCESS_KEY=".data)
      ("AWS_SECRET_ACCESS_KEY=".data ++ accessKeySecret) c1

/-- `credentialsFile.match(/^\[.*\]$/gm)`: split into line segments at every
line terminator; a segment matches iff it begins with `[` and ends with `]`. -/
def splitOnTerms : Str → List Str
  | [] => [[]]
  | c :: r =>
    let rest := splitOnTerms r
    if isLineTerm c then [] :: rest
    else (c :: rest.headD []) :: rest.tail

def isHeaderLine (l : Str) : Bool :=
  decide (2 ≤ l.length) && l.head? = some '[' && l.getLast? = some ']'

/-- `getAllCredentialProfiles` applied to the credentials-file content: every
full line of the shape `[...]`, with the match's first and last character
stripped (`profile.slice(1, -1)`). -/
def getAllCredentialProfiles (file : Str) : List Str :=
  ((splitOnTerms file).filter isHeaderLine).map fun l => (l.drop 1).dropLast

/-- One entry of `ListAccessKeysCommand`'s `AccessKeyMetadata` (only the
fields the tool reads); `createDate` is `none` when `CreateDate` is absent. -/
structure AccessKeyMeta where
  accessKeyId : Str
  createDate : Option Nat
deriving DecidableEq

/-- A profile after `getAllProfiles` merged local config with remote keys. -/
structure ResolvedProfile where
  name : Str
  accessKeyId : Str
  createDate : Option Nat
deriving DecidableEq

/-- Join step of `getAllProfiles`: attach `foundKey?.CreateDate` (first remote
key with an equal id, if any) to each locally resolved `(name, accessKeyId)`
pair, then keep only entries whose `createDate` is present
(`filter((key) => !!key.createDate)`).  `keys = none` models an undefined
`AccessKeyMetadata`. -/
def joinRemote (keys : Option (List AccessKeyMeta)) (resolved : List (Str × Str)) :
    List ResolvedProfile :=
  (resolved.map fun nk =>
    { name := nk.1, accessKeyId := nk.2,
      createDate :=
        ((keys.bind fun ks => ks.find? fun k => decide (k.accessKeyId = nk.2)).bind
          fun k => k.createDate) : ResolvedProfile })
  |>.filter fun p => p.createDate.isSome

/-- The per-profile `fromIni` resolutions (modelled by `cfg`, giving the
locally configured access key id) inside the `Promise.all`: `none` (a
rejected resolution) makes the whole resolution reject. -/
def resolveLocal (cfg : Str → Option Str) : List Str → Option (List (Str × Str))
  | [] => some []
  | n :: ns => do
    let kid ← cfg n
    let rest ← resolveLocal cfg ns
    pure ((n, kid) :: rest)

def getAllProfiles (cfg : Str → Option Str) (keys : Option (List AccessKeyMeta))
    (names : List Str) : Option (List ResolvedProfile) :=
  (resolveLocal cfg names).map (joinRemote keys)

/-- The distinct `log.error` messages the tool can print. -/
inductive LogMsg where
  | replFail   -- `Failed replacing credentials`
  | envFail    -- `Failed updating env file: ...`
  | tooMany    -- `Cannot rotate more than 2 access keys`
  | enumFail   -- the caught error from `getAllCredentialProfiles`
deriving DecidableEq

/-- Externally visible calls of a run, in program order. -/
inductive Event where
  | listKeysCall
  | createCall
  | credsRead
  | credsWrite
  | envRead (path : Str)
  | envWrite (path : Str)
  | deleteCall (key : Str)
  | logError (m : LogMsg)
deriving DecidableEq

/-- Calls that mutate external state (IAM or a file). -/
def mutating : Event → Bool
  | .createCall => true
  | .credsWrite => true
  | .envWrite _ => true
  | .deleteCall _ => true
  | _ => false

/-- Filesystem state: credentials-file content (`none` = missing/unreadable),
env files by path, and an oracle of operation indices at which a filesystem
call throws (modelling transient I/O failures). -/
structure St where
  creds : Option Str
  envs : List (Str × Str)
  fsFails : List Nat
  opIdx : Nat
deriving DecidableEq

/-- Account one filesystem operation; the `Bool` says whether it succeeds. -/
def fsOp (s : St) : St × Bool :=
  ({ s with opIdx := s.opIdx + 1 }, decide (s.opIdx ∉ s.fsFails))

def lookupEnv : List (Str × Str) → Str → Option Str
  | [], _ => none
  | (p, c) :: r, q => if p = q then some c else lookupEnv r q

def updateEnv : List (Str × Str) → Str → Str → List (Str × Str)
  | [], p, c => [(p, c)]
  | (q, d) :: r, p, c => if q = p then (p, c) :: r else (q, d) :: updateEnv r p c

/-- The minimist value of `--env` after the `args.env === true` defaulting:
`-e` alone becomes the path `.env`; only a string value enables the env-file
branch (`typeof env === 'string'`). -/
inductive EnvArg where
  | undef
  | boolTrue
  | boolFalse
  | path (p : Str)
deriving DecidableEq

def envValOf : EnvArg → Option Str
  | .boolTrue => some ".env".data
  | .path p => some p
  | _ => none

/-- `replaceCrendentials` as a filesystem operation: read the credentials
file, rewrite it through the regex substitution, write it back, and (when the
`env` argument is a string) patch the env file, catching any env-file failure
and logging it.  The returned `Except` is the promise outcome: `.error` iff
an uncaught exception escapes (credentials read/write failure). -/
def replaceCrendentialsOp (name accessKeyId accessKeySecret : Str)
    (envPath : Option Str) (st : St) : List Event × St × Except Unit Unit :=
  let (st1, ok1) := fsOp st
  match (if ok1 then st.creds else none) with
  | none => ([.credsRead], st1, .error ())
  | some content =>
    let newFile := replaceCrendentials name accessKeyId accessKeySecret content
    let (st2, ok2) := fsOp st1
    if ok2 then
      let st2w := { st2 with creds := some newFile }
      match envPath with
      | none => ([.credsRead, .credsWrite], st2w, .ok ())
      | some p =>
        let (st3, ok3) := fsOp st2w
        match (if ok3 then lookupEnv st2w.envs p else none) with
        | none =>
            ([.credsRead, .credsWrite, .envRead p, .logError .envFail], st3, .ok ())
        | some envContent =>
          let newEnv := replaceEnvContent accessKeyId accessKeySecret envContent
          let (st4, ok4) := fsOp st3
          if ok4 then
            ([.credsRead, .credsWrite, .envRead p, .envWrite p],
              { st4 with envs := updateEnv st4.envs p newEnv }, .ok ())
          else
            ([.credsRead, .credsWrite, .envRead p, .envWrite p, .logError .envFail],
              st4, .ok ())
    else ([.credsRead, .credsWrite], st2, .error ())

/-- One element `rotated.push({name, key, secret})`. -/
structure Rotated where
  name : Str
  key : Str
  secret : Str
deriving DecidableEq

/-- The `for (const profile of selectedForRotation)` loop: create a key
(consuming the next `createAccessKey` outcome; `none` or exhaustion models a
create failure, whose exception is uncaught), then attempt the credentials
replacement inside `try/catch`, logging a failure and continuing; every
iteration records its profile as rotated.  The final `Bool` is `false` when
the loop died on an uncaught create failure. -/
def rotateLoop (envPath : Option Str) :
    List ResolvedProfile → List (Option (Str × Str)) → St →
    List Event × St × List Rotated × Bool
  | [], _, st => ([], st, [], true)
  | p :: ps, creates, st =>
    match creates with
    | [] => ([.createCall], st, [], false)
    | none :: _ => ([.createCall], st, [], false)
    | some (accessKeyId, accessKeySecret) :: creates' =>
      let (tr, st1, res) := replaceCrendentialsOp p.name accessKeyId accessKeySecret envPath st
      let trErr : List Event :=
        match res with
        | .error _ => [.logError .replFail]
        | .ok _ => []
      let (tr2, st2, rot, ok) := rotateLoop envPath ps creates' st1
      (.createCall :: (tr ++ trErr ++ tr2), st2,
        ⟨p.name, accessKeyId, accessKeySecret⟩ :: rot, ok)

/-- Inputs a run consumes from the outside world: the parsed flags, the
`fromIni` resolver, the outcome of `ListAccessKeysCommand` (`.error` = the
call rejected; `.ok none` = undefined `AccessKeyMetadata`), the successive
`CreateAccessKeyCommand` outcomes, and the interactive selection (`none` =
cancelled). -/
structure RunEnv where
  argsProfiles : Bool
  argsOutput : Bool
  argsEnv : EnvArg
  cfg : Str → Option Str
  listKeysRes : Except Unit (Option (List AccessKeyMeta))
  creates : List (Option (Str × Str))
  selection : Option (List Str)

/-- How a process run ends: plain return from `run` (process exits 0),
`process.exit(0)`, `process.exit(1)`, or death by uncaught exception. -/
inductive Outcome where
  | completed
  | exit0
  | exit1
  | crashed
deriving DecidableEq

/-- Process exit code of an outcome; an uncaught exception's code is decided
by the runtime, not by this program, hence `none`. -/
def exitCode : Outcome → Option Nat
  | .completed => some 0
  | .exit0 => some 0
  | .exit1 => some 1
  | .crashed => none

inductive Prep where
  | exitEarly (o : Outcome)
  | proceed (sel : List ResolvedProfile)
deriving DecidableEq

/-- The `-p` branch at the top of `run`: enumerate the local profile names
(`getAllCredentialProfiles`), or default to `['default']`; `none` = the
caught enumeration failure that leads to `process.exit(1)`. -/
def enumPhase (env : RunEnv) (st : St) : List Event × St × Option (List Str) :=
  if env.argsProfiles then
    let (st1, ok) := fsOp st
    match (if ok then st.creds else none) with
    | none => ([Event.credsRead, Event.logError .enumFail], st1, none)
    | some c => ([Event.credsRead], st1, some (getAllCredentialProfiles c))
  else ([], st, some ["default".data])

/-- Everything `run` does before the size checks: profile enumeration (with
`-p`), `getAllProfiles`, the empty-result early exit, and interactive
selection; yields the `selectedForRotation` list. -/
def prepare (env : RunEnv) (st : St) : List Event × St × Prep :=
  match enumPhase env st with
  | (t0, stA, none) => (t0, stA, .exitEarly .exit1)
  | (t0, stA, some profiles) =>
    let t1 := t0 ++ [Event.listKeysCall]
    match env.listKeysRes with
    | .error _ => (t1, stA, .exitEarly .crashed)
    | .ok keys =>
      match getAllProfiles env.cfg keys profiles with
      | none => (t1, stA, .exitEarly .crashed)
      | some allProfiles =>
        if allProfiles.isEmpty then (t1, stA, .exitEarly .exit0)
        else
          match (if env.argsProfiles then env.selection else some ["default".data]) with
          | none => (t1, stA, .exitEarly .exit0)
          | some sel =>
            (t1, stA, .proceed (allProfiles.filter fun p => decide (p.name ∈ sel)))

structure RunResult where
  trace : List Event
  finalSt : St
  rotated : List Rotated
  outcome : Outcome
deriving DecidableEq

/-- The whole `run()`: prepare, enforce the size limits, rotate each selected
profile sequentially, then issue every old-key deletion (the `Promise.all`
fan-out, linearised in issue order). -/
def run (env : RunEnv) (creds0 : Option Str) (envs0 : List (Str × Str))
    (fsFails0 : List Nat) : RunResult :=
  match prepare env ⟨creds0, envs0, fsFails0, 0⟩ with
  | (t1, st1, .exitEarly o) => ⟨t1, st1, [], o⟩
  | (t1, st1, .proceed sel) =>
    if 2 < sel.length then ⟨t1 ++ [.logError .tooMany], st1, [], .completed⟩
    else if sel.length = 0 then ⟨t1, st1, [], .completed⟩
    else
      match rotateLoop (if sel.length = 1 then envValOf env.argsEnv else none) sel
          env.creates st1 with
      | (t2, st2, rot, true) =>
        ⟨t1 ++ t2 ++ sel.map (fun p => Event.deleteCall p.accessKeyId), st2, rot, .completed⟩
      | (t2, st2, rot, false) => ⟨t1 ++ t2, st2, rot, .crashed⟩

/-- The enumeration of local profiles fails (file missing or its read, the
first filesystem operation of the run, throws). -/
def enumFails (creds0 : Option Str) (fsFails0 : List Nat) : Prop :=
  0 ∈ fsFails0 ∨ creds0 = none

instance : DecidablePred (fun p : Option Str × List Nat => enumFails p.1 p.2) :=
  fun _ => by unfold enumFails; infer_instance

/-- Spec-side view of a well-formed credentials-file section. -/
structure Sec where
  name : Str
  keyId : Str
  secret : Str
deriving DecidableEq

/-- A well-formed section renders exactly as the tool's replacement block. -/
def renderSection (s : Sec) : Str := newDefaultProfile s.name s.keyId s.secret

/-- A well-formed credentials file: sections separated by single newlines. -/
def renderFile : List Sec → Str
  | [] => []
  | [s] => renderSection s
  | s :: ss => renderSection s ++ '
' :: renderFile ss

/-- A profile name the regex treats literally: no metacharacter (so splicing
it into the pattern is harmless) and no line terminator. -/
def plainName (n : Str) : Prop := ∀ c ∈ n, metaChar c = false ∧ isLineTerm c = false

/-- A key/secret value keeping its line a single line. -/
def plainVal (v : Str) : Prop := ∀ c ∈ v, isLineTerm c = false

/-- Node list of a literal run of characters. -/
def lits (xs : Str) : List RNode := xs.map fun c => .once (.lit c)

/-- The (compiled) section pattern for a plain profile name. -/
def patNodes (name : Str) : List RNode :=
  .once (.lit '[') :: lits name ++
    [.once (.lit ']'), .star .wsp, .plus .dot, .star .wsp, .plus .dot]

/-- The tail of the section pattern after the literal header. -/
def tailNodes : List RNode := [.star .wsp, .plus .dot, .star .wsp, .plus .dot]

/-- Text preceding / following a block inside a rendered file. -/
def fileHead (ss : List Sec) : Str := if ss.isEmpty then [] else renderFile ss ++ ['\n']

def fileTail (ss : List Sec) : Str := if ss.isEmpty then [] else '\n' :: renderFile ss

/-- A section other than the targeted one, well-formed enough that the
pattern for `target` cannot fire anywhere inside its rendering. -/
def wfOther (target : Str) (s : Sec) : Prop :=
  plainName s.name ∧ s.name ≠ target ∧ plainVal s.keyId ∧ plainVal s.secret

instance : DecidablePred plainName :=
  fun n => by unfold plainName; infer_instance

instance : DecidablePred plainVal :=
  fun v => by unfold plainVal; infer_instance

instance (target : Str) : DecidablePred (wfOther target) :=
  fun s => by unfold wfOther; infer_instance

/-- Claim C8 witness resolver: `one` holds `AK1`, anything else `AK2`. -/
def cfgC8x : Str → Option Str :=
  fun n => if n = "one".data then some "AK1".data else some "AK2".data

/-- Claim C7 scenario: a plain (no `-p`) run rotating `default` with `-e p`
while no env file exists; `cfgF` is the local resolver, `oldId`/`d` the
remote key, and the new key material is the head of the create stream. -/
def envC7 (cfgF : Str → Option Str) (p oldId : Str) (d : Nat)
    (accessKeyId accessKeySecret : Str) (cs : List (Option (Str × Str)))
    (outFlag : Bool) (selO : Option (List Str)) : RunEnv :=
  ⟨false, outFlag, .path p, cfgF, .ok (some [⟨oldId, some d⟩]),
    some (accessKeyId, accessKeySecret) :: cs, selO⟩

/-- Claim C8 scenario: a `-p` run with two profiles selected; the remote list
holds both old keys and the create stream supplies both new pairs. -/
def envC8 (cfgF : Str → Option Str) (p1 p2 old1 old2 : Str) (d1 d2 : Nat)
    (id1 s1 id2 s2 : Str) (outFlag : Bool) : RunEnv :=
  ⟨true, outFlag, .undef, cfgF, .ok (some [⟨old1, some d1⟩, ⟨old2, some d2⟩]),
    [some (id1, s1), some (id2, s2)], some [p1, p2]⟩

/-- Claim C5 counterexample scenario: a single-profile run without any `-e`
flag; everything else succeeds. -/
def envC5x : RunEnv :=
  ⟨false, false, .undef,
    fun n => if n = "default".data then some "AKIAOLD".data else none,
    .ok (some [⟨"AKIAOLD".data, some 3⟩]),
    [some ("AKIANEW".data, "SECNEW".data)], none⟩

def fileC5x : Str := renderFile [⟨"default".data, "AKIAOLD".data, "SECOLD".data⟩]

/-- Claim C2 counterexample scenario: a credentials file holding only a
section `[other]`, about to be "replaced" under the absent profile name
`default`. -/
def stC2x : St := ⟨some (renderFile [⟨"other".data, "AKIA".data, "S".data⟩]), [], [], 0⟩

/-- Claim C4 witness scenario: `-p` with three eligible profiles all selected. -/
def envC4x : RunEnv :=
  ⟨true, false, .undef,
    fun n => if n = "one".data then some "AK1".data
      else if n = "two".data then some "AK2".data
      else if n = "three".data then some "AK3".data else none,
    .ok (some [⟨"AK1".data, some 1⟩, ⟨"AK2".data, some 2⟩, ⟨"AK3".data, some 3⟩]),
    [], some ["one".data, "two".data, "three".data]⟩

def fileC4x : Str := renderFile [⟨"one".data, "AK1".data, "S1".data⟩,
  ⟨"two".data, "AK2".data, "S2".data⟩, ⟨"three".data, "AK3".data, "S3".data⟩]

/-- Claim C6 witness scenario: profile `b`'s local key has no remote match. -/
def cfgC6x : Str → Option Str :=
  fun n => if n = "a".data then some "K1".data else some "KX".data

/-- Claim C9 witness scenario: `-p` with an unreadable credentials file. -/
def envC9x : RunEnv :=
  ⟨true, false, .undef, fun _ => none, .ok none, [], none⟩

theorem tryFrom_of_top {cont : Nat → Option α} {n : Nat} {v : α}
    (h : cont n = some v) : tryFrom cont n = some v := by
  cases n with
  | zero => simpa [tryFrom] using h
  | succ n => simp [tryFrom, h, Option.orElse]

theorem tryFrom_exists {cont : Nat → Option α} {n : Nat} {v : α}
    (h : tryFrom cont n = some v) : ∃ j ≤ n, cont j = some v := by
  induction n with
  | zero => exact ⟨0, Nat.le_refl 0, by simpa [tryFrom] using h⟩
  | succ n ih =>
    rw [tryFrom] at h
    rcases hc : cont (n + 1) with _ | w
    · rw [hc] at h
      simp [Option.orElse] at h
      rcases ih h with ⟨j, hj, hcj⟩
      exact ⟨j, Nat.le_succ_of_le hj, hcj⟩
    · rw [hc] at h
      simp [Option.orElse] at h
      exact ⟨n + 1, Nat.le_refl _, by rw [hc, h]⟩

theorem maxRun_append_stop {a : RAtom} {xs : Str} {y : Char} {ys : Str}
    (hxs : ∀ c ∈ xs, atomTest a c = true) (hy : atomTest a y = false) :
    maxRun a (xs ++ y :: ys) = xs.length := by
  induction xs with
  | nil => simp [maxRun, hy]
  | cons c xs ih =>
    have hc : atomTest a c = true := hxs c (by simp)
    simp [maxRun, hc, ih fun d hd => hxs d (by simp [hd])]

theorem maxRun_all {a : RAtom} {xs : Str}
    (hxs : ∀ c ∈ xs, atomTest a c = true) : maxRun a xs = xs.length := by
  induction xs with
  | nil => simp [maxRun]
  | cons c xs ih =>
    have hc : atomTest a c = true := hxs c (by simp)
    simp [maxRun, hc, ih fun d hd => hxs d (by simp [hd])]

theorem matchSeq_lits_append (xs : Str) (ns : List RNode) (s : Str)
    (k : Str → Option Str) :
    matchSeq (lits xs ++ ns) (xs ++ s) k = matchSeq ns s k := by
  induction xs with
  | nil => simp [lits]
  | cons c xs ih => simp [lits, matchSeq, atomTest] at ih ⊢; exact ih

theorem matchSeq_lits_some {xs : Str} {ns : List RNode} {s : Str}
    {k : Str → Option Str} {r : Str}
    (h : matchSeq (lits xs ++ ns) s k = some r) :
    ∃ s', s = xs ++ s' ∧ matchSeq ns s' k = some r := by
  induction xs generalizing s with
  | nil => exact ⟨s, rfl, by simpa [lits] using h⟩
  | cons c xs ih =>
    cases s with
    | nil => simp [lits, matchSeq] at h
    | cons d s' =>
      simp only [lits, List.map_cons, List.cons_append, matchSeq] at h
      by_cases hcd : atomTest (.lit c) d
      · have hc : c = d := by simpa [atomTest] using hcd
        rw [if_pos hcd] at h
        rcases ih h with ⟨s'', hs, hm⟩
        exact ⟨s'', by simp [hc, hs], hm⟩
      · rw [if_neg hcd] at h; exact absurd h (by simp)

theorem endAnchor_some {s r : Str} (h : endAnchor s = some r) : r = s := by
  cases s with
  | nil => simpa [endAnchor] using h.symm
  | cons c s' =>
    by_cases hc : isLineTerm c
    · simpa [endAnchor, hc] using h.symm
    · simp [endAnchor, hc] at h

theorem matchSeq_endAnchor_suffix {ns : List RNode} {s r : Str}
    (h : matchSeq ns s endAnchor = some r) : r <:+ s := by
  induction ns generalizing s with
  | nil =>
    rw [matchSeq] at h
    exact (endAnchor_some h) ▸ List.suffix_refl s
  | cons n ns ih =>
    cases n with
    | once a =>
      cases s with
      | nil => simp [matchSeq] at h
      | cons c s' =>
        rw [matchSeq] at h
        by_cases hc : atomTest a c
        · rw [if_pos hc] at h
          exact (ih h).trans (List.suffix_cons c s')
        · rw [if_neg hc] at h; exact absurd h (by simp)
    | star a =>
      rw [matchSeq] at h
      rcases tryFrom_exists h with ⟨j, _, hj⟩
      exact (ih hj).trans (List.drop_suffix j s)
    | plus a =>
      cases s with
      | nil => simp [matchSeq] at h
      | cons c s' =>
        rw [matchSeq] at h
        by_cases hc : atomTest a c
        · rw [if_pos hc] at h
          rcases tryFrom_exists h with ⟨j, _, hj⟩
          exact (ih hj).trans ((List.drop_suffix j s').trans (List.suffix_cons c s'))
        · rw [if_neg hc] at h; exact absurd h (by simp)

theorem matchSeq_header_none {tail : List RNode} {k : Str → Option Str} :
    ∀ (name nm : Str), name ≠ nm → ']' ∉ name → ']' ∉ nm → ∀ rest : Str,
      matchSeq (lits (name ++ [']']) ++ tail) (nm ++ ']' :: rest) k = none := by
  intro name
  induction name with
  | nil =>
    intro nm hne _ h2 rest
    cases nm with
    | nil => exact absurd rfl hne
    | cons d nm' =>
      have hd : (']' : Char) ≠ d := fun h => h2 (by simp [← h])
      simp [lits, matchSeq, atomTest, hd]
  | cons a name' ih =>
    intro nm hne h1 h2 rest
    cases nm with
    | nil =>
      have ha : (a : Char) ≠ ']' := fun h => h1 (by simp [h])
      simp [lits, matchSeq, atomTest, ha]
    | cons b nm' =>
      by_cases hab : a = b
      · subst hab
        have hne' : name' ≠ nm' := fun h => hne (by simp [h])
        have h1' : ']' ∉ name' := fun h => h1 (by simp [h])
        have h2' : ']' ∉ nm' := fun h => h2 (by simp [h])
        simpa [lits, matchSeq, atomTest] using ih nm' hne' h1' h2' rest
      · simp [lits, matchSeq, atomTest, hab]

theorem patNodes_eq (name : Str) :
    patNodes name = .once (.lit '[') :: (lits (name ++ [']']) ++ tailNodes) := by
  simp [patNodes, tailNodes, lits]

theorem matchSeq_patNodes_nil {name : Str} {k : Str → Option Str} :
    matchSeq (patNodes name) [] k = none := by
  rw [patNodes_eq, matchSeq]

theorem matchSeq_patNodes_nonbracket {name : Str} {c : Char} {s : Str}
    {k : Str → Option Str} (hc : c ≠ '[') :
    matchSeq (patNodes name) (c :: s) k = none := by
  have h : ('[' : Char) ≠ c := fun h => hc h.symm
  rw [patNodes_eq]
  simp [matchSeq, atomTest, h]

theorem matchSeq_patNodes_other {name nm : Str} (hne : name ≠ nm)
    (h1 : ']' ∉ name) (h2 : ']' ∉ nm) {rest : Str} {k : Str → Option Str} :
    matchSeq (patNodes name) ('[' :: (nm ++ ']' :: rest)) k = none := by
  rw [patNodes_eq]
  simp only [matchSeq, atomTest, decide_eq_true_eq, if_pos rfl]
  rw [if_pos (by simp)]
  exact matchSeq_header_none name nm hne h1 h2 rest

theorem matchSeq_tail_eval {c1 : Char} {t1 : Str} {c2 : Char} {t2 r : Str}
    (h1w : isJsWs c1 = false) (h1 : ∀ c ∈ c1 :: t1, isLineTerm c = false)
    (h2w : isJsWs c2 = false) (h2 : ∀ c ∈ c2 :: t2, isLineTerm c = false)
    (hr : r = [] ∨ ∃ r', r = '\n' :: r') :
    matchSeq tailNodes ('\n' :: ((c1 :: t1) ++ '\n' :: ((c2 :: t2) ++ r))) endAnchor
      = some r := by
  have hdot1 : ∀ c ∈ t1, atomTest .dot c = true := fun c hc => by
    simp [atomTest, h1 c (by simp [hc])]
  have hdot2 : ∀ c ∈ t2, atomTest .dot c = true := fun c hc => by
    simp [atomTest, h2 c (by simp [hc])]
  have hc1 : atomTest .dot c1 = true := by simp [atomTest, h1 c1 (by simp)]
  have hc2 : atomTest .dot c2 = true := by simp [atomTest, h2 c2 (by simp)]
  have hnlw : atomTest .wsp '\n' = true := by decide
  have hnld : atomTest .dot '\n' = false := by decide
  have h4 : matchSeq [.plus .dot] (c2 :: (t2 ++ r)) endAnchor = some r := by
    rw [matchSeq, if_pos hc2]
    rcases hr with hr | ⟨r', hr⟩
    · subst hr
      apply tryFrom_of_top
      simp only [List.append_nil]
      rw [maxRun_all hdot2, List.drop_length]
      simp [matchSeq, endAnchor]
    · subst hr
      apply tryFrom_of_top
      rw [maxRun_append_stop hdot2 hnld, List.drop_left]
      simp [matchSeq, endAnchor, isLineTerm]
  have h3 : matchSeq [.star .wsp, .plus .dot] ('\n' :: (c2 :: (t2 ++ r)))
      endAnchor = some r := by
    rw [matchSeq]
    apply tryFrom_of_top
    have hmr : maxRun .wsp ('\n' :: (c2 :: (t2 ++ r))) = 1 := by
      simp [maxRun, atomTest, h2w, show isJsWs '\n' = true from by decide]
    rw [hmr]
    simpa using h4
  have h2s : matchSeq [.plus .dot, .star .wsp, .plus .dot]
      (c1 :: (t1 ++ '\n' :: (c2 :: (t2 ++ r)))) endAnchor = some r := by
    rw [matchSeq, if_pos hc1]
    apply tryFrom_of_top
    rw [maxRun_append_stop hdot1 hnld, List.drop_left]
    exact h3
  have hshape : ('\n' :: ((c1 :: t1) ++ '\n' :: ((c2 :: t2) ++ r)))
      = '\n' :: (c1 :: (t1 ++ '\n' :: (c2 :: (t2 ++ r)))) := by simp
  rw [hshape, tailNodes, matchSeq]
  apply tryFrom_of_top
  have hmr : maxRun .wsp ('\n' :: (c1 :: (t1 ++ '\n' :: (c2 :: (t2 ++ r))))) = 1 := by
    simp [maxRun, atomTest, h1w, show isJsWs '\n' = true from by decide]
  rw [hmr]
  simpa using h2s

theorem plainName_no_bracket {n : Str} (h : plainName n) : ']' ∉ n := by
  intro hm
  have h1 := (h ']' hm).1
  rw [show metaChar ']' = true from by decide] at h1
  exact Bool.noConfusion h1

theorem plainName_noTerm {n : Str} (h : plainName n) :
    ∀ c ∈ n, isLineTerm c = false := fun c hc => (h c hc).2

theorem noTerm_append {l1 l2 : Str} (h1 : ∀ c ∈ l1, isLineTerm c = false)
    (h2 : ∀ c ∈ l2, isLineTerm c = false) :
    ∀ c ∈ l1 ++ l2, isLineTerm c = false := by
  intro c hc
  rcases List.mem_append.1 hc with hc | hc
  · exact h1 c hc
  · exact h2 c hc

theorem searchFrom_match {ns : List RNode} {pre s rest : Str}
    (h : matchSeq ns s endAnchor = some rest) :
    searchFrom ns pre s true
      = some (pre.reverse, s.take (s.length - rest.length), rest) := by
  cases s with
  | nil =>
    have h0 : rest = [] := by
      have := matchSeq_endAnchor_suffix h
      simpa using this.length_le
    simp [searchFrom, h, h0]
  | cons c s' => simp [searchFrom, h]

theorem searchFrom_step {ns : List RNode} {pre s : Str}
    (h : matchSeq ns s endAnchor = none) :
    searchFrom ns pre s true = searchFrom ns pre s false := by
  cases s with
  | nil => simp [searchFrom, h]
  | cons c s' => simp [searchFrom, h]

theorem searchFrom_false_cons {ns : List RNode} {pre : Str} {c : Char} {s' : Str} :
    searchFrom ns pre (c :: s') false = searchFrom ns (c :: pre) s' (isLineTerm c) := by
  simp [searchFrom]

theorem searchFrom_false_nil {ns : List RNode} {pre : Str} :
    searchFrom ns pre [] false = none := by
  simp [searchFrom]

theorem searchFrom_skip_line {ns : List RNode} {l : Str}
    (hl : ∀ c ∈ l, isLineTerm c = false) :
    ∀ pre rest, searchFrom ns pre (l ++ '\n' :: rest) false
      = searchFrom ns ('\n' :: (l.reverse ++ pre)) rest true := by
  induction l with
  | nil =>
    intro pre rest
    simp [searchFrom_false_cons, show isLineTerm '\n' = true from by decide]
  | cons c l ih =>
    intro pre rest
    have hc : isLineTerm c = false := hl c (by simp)
    rw [List.cons_append, searchFrom_false_cons, hc,
      ih (fun d hd => hl d (by simp [hd]))]
    simp

theorem searchFrom_false_end {ns : List RNode} {l : Str}
    (hl : ∀ c ∈ l, isLineTerm c = false) :
    ∀ pre, searchFrom ns pre l false = none := by
  induction l with
  | nil => intro pre; exact searchFrom_false_nil
  | cons c l ih =>
    intro pre
    have hc : isLineTerm c = false := hl c (by simp)
    rw [searchFrom_false_cons, hc]
    exact ih (fun d hd => hl d (by simp [hd])) _

theorem renderSection_append (s : Sec) (X : Str) :
    renderSection s ++ X =
      '[' :: (s.name ++ ']' :: '\n' ::
        (('a' :: ("ws_access_key_id=".data ++ s.keyId)) ++ '\n' ::
          (('a' :: ("ws_secret_access_key=".data ++ s.secret)) ++ X))) := by
  have ha : "aws_access_key_id=".data = 'a' :: "ws_access_key_id=".data := rfl
  have hb : "aws_secret_access_key=".data = 'a' :: "ws_secret_access_key=".data := rfl
  simp only [renderSection, newDefaultProfile, ha, hb]
  simp

theorem noTerm_keyLine {kid : Str} (hkid : ∀ c ∈ kid, isLineTerm c = false) :
    ∀ c ∈ 'a' :: ("ws_access_key_id=".data ++ kid), isLineTerm c = false := by
  intro c hc
  rcases List.mem_cons.1 hc with hc | hc
  · subst hc; decide
  · exact @noTerm_append "ws_access_key_id=".data kid (by decide) hkid c hc

theorem noTerm_secretLine {sec : Str} (hsec : ∀ c ∈ sec, isLineTerm c = false) :
    ∀ c ∈ 'a' :: ("ws_secret_access_key=".data ++ sec), isLineTerm c = false := by
  intro c hc
  rcases List.mem_cons.1 hc with hc | hc
  · subst hc; decide
  · exact @noTerm_append "ws_secret_access_key=".data sec (by decide) hsec c hc

theorem renderSection_nomatch {name : Str} (hname : plainName name) {sec : Sec}
    (hsec : wfOther name sec) {X : Str} {k : Str → Option Str} :
    matchSeq (patNodes name) (renderSection sec ++ X) k = none := by
  rcases hsec with ⟨hp, hne, _, _⟩
  rw [renderSection_append]
  exact matchSeq_patNodes_other (fun h => hne h.symm) (plainName_no_bracket hname)
    (plainName_no_bracket hp)

theorem searchFrom_skip_section {name : Str} (hname : plainName name) {sec : Sec}
    (hsec : wfOther name sec) (pre rest : Str) :
    searchFrom (patNodes name) pre (renderSection sec ++ '\n' :: rest) true
      = searchFrom (patNodes name) ('\n' :: ((renderSection sec).reverse ++ pre)) rest true := by
  obtain ⟨hp, hne, hkid, hsc⟩ := hsec
  have hL1 : ∀ c ∈ '[' :: (sec.name ++ [']']), isLineTerm c = false := by
    intro c hc
    rcases List.mem_cons.1 hc with hc | hc
    · subst hc; decide
    · rcases List.mem_append.1 hc with hc | hc
      · exact (hp c hc).2
      · simp at hc; subst hc; decide
  have hL2 := noTerm_keyLine (fun c hc => hkid c hc)
  have hL3 := noTerm_secretLine (fun c hc => hsc c hc)
  rw [searchFrom_step (renderSection_nomatch hname ⟨hp, hne, hkid, hsc⟩)]
  have hshape : renderSection sec ++ '\n' :: rest
      = ('[' :: (sec.name ++ [']'])) ++ '\n' ::
          (('a' :: ("ws_access_key_id=".data ++ sec.keyId)) ++ '\n' ::
            (('a' :: ("ws_secret_access_key=".data ++ sec.secret)) ++ '\n' :: rest)) := by
    rw [renderSection_append]
    simp
  rw [hshape, searchFrom_skip_line hL1]
  rw [searchFrom_step (by rw [List.cons_append]; exact matchSeq_patNodes_nonbracket (by decide))]
  rw [searchFrom_skip_line hL2]
  rw [searchFrom_step (by rw [List.cons_append]; exact matchSeq_patNodes_nonbracket (by decide))]
  rw [searchFrom_skip_line hL3]
  congr 1
  have h2 : renderSection sec
      = ('[' :: (sec.name ++ [']'])) ++ '\n' ::
          (('a' :: ("ws_access_key_id=".data ++ sec.keyId)) ++ '\n' ::
            ('a' :: ("ws_secret_access_key=".data ++ sec.secret))) := by
    have hnil : renderSection sec = renderSection sec ++ [] := by simp
    rw [hnil, renderSection_append]
    simp
  rw [h2]
  simp

theorem searchFrom_last_section_none {name : Str} (hname : plainName name) {sec : Sec}
    (hsec : wfOther name sec) (pre : Str) :
    searchFrom (patNodes name) pre (renderSection sec) true = none := by
  obtain ⟨hp, hne, hkid, hsc⟩ := hsec
  have hL1 : ∀ c ∈ '[' :: (sec.name ++ [']']), isLineTerm c = false := by
    intro c hc
    rcases List.mem_cons.1 hc with hc | hc
    · subst hc; decide
    · rcases List.mem_append.1 hc with hc | hc
      · exact (hp c hc).2
      · simp at hc; subst hc; decide
  have hL2 := noTerm_keyLine (fun c hc => hkid c hc)
  have hL3 := noTerm_secretLine (fun c hc => hsc c hc)
  have hnil : renderSection sec = renderSection sec ++ [] := by simp
  rw [searchFrom_step (by rw [hnil]; exact renderSection_nomatch hname ⟨hp, hne, hkid, hsc⟩)]
  have hshape : renderSection sec
      = ('[' :: (sec.name ++ [']'])) ++ '\n' ::
          (('a' :: ("ws_access_key_id=".data ++ sec.keyId)) ++ '\n' ::
            ('a' :: ("ws_secret_access_key=".data ++ sec.secret))) := by
    rw [hnil, renderSection_append]
    simp
  rw [hshape, searchFrom_skip_line hL1]
  rw [searchFrom_step (by rw [List.cons_append]; exact matchSeq_patNodes_nonbracket (by decide))]
  rw [searchFrom_skip_line hL2]
  rw [searchFrom_step (by rw [List.cons_append]; exact matchSeq_patNodes_nonbracket (by decide))]
  exact searchFrom_false_end hL3 _

theorem matchSeq_at_target {name kid sec : Str} (_hname : plainName name)
    (hkid : ∀ c ∈ kid, isLineTerm c = false) (hsec : ∀ c ∈ sec, isLineTerm c = false)
    {r : Str} (hr : r = [] ∨ ∃ r', r = '\n' :: r') :
    matchSeq (patNodes name) (renderSection ⟨name, kid, sec⟩ ++ r) endAnchor = some r := by
  rw [renderSection_append, patNodes_eq, matchSeq]
  rw [if_pos (by simp [atomTest])]
  have hshape : (Sec.mk name kid sec).name ++ ']' :: '\n' ::
        (('a' :: ("ws_access_key_id=".data ++ (Sec.mk name kid sec).keyId)) ++ '\n' ::
          (('a' :: ("ws_secret_access_key=".data ++ (Sec.mk name kid sec).secret)) ++ r))
      = (name ++ [']']) ++ '\n' ::
          (('a' :: ("ws_access_key_id=".data ++ kid)) ++ '\n' ::
            (('a' :: ("ws_secret_access_key=".data ++ sec)) ++ r)) := by
    simp
  rw [hshape, matchSeq_lits_append]
  exact matchSeq_tail_eval (by decide) (noTerm_keyLine hkid) (by decide)
    (noTerm_secretLine hsec) hr

theorem renderFile_cons (s : Sec) (ss : List Sec) :
    renderFile (s :: ss) = renderSection s ++ fileTail ss := by
  cases ss <;> simp [renderFile, fileTail]

theorem renderFile_decomp (pre : List Sec) (t : Sec) (post : List Sec) :
    renderFile (pre ++ t :: post) = fileHead pre ++ renderSection t ++ fileTail post := by
  induction pre with
  | nil => simp [fileHead, renderFile_cons]
  | cons u pre ih =>
    rw [List.cons_append, renderFile_cons]
    have hne : (pre ++ t :: post).isEmpty = false := by
      cases pre <;> simp
    rw [show fileTail (pre ++ t :: post) = '\n' :: renderFile (pre ++ t :: post) from by
      simp [fileTail, hne]]
    rw [ih]
    cases pre with
    | nil => simp [fileHead, fileTail, renderFile_cons]
    | cons v vs => simp [fileHead, fileTail, renderFile_cons, List.append_assoc]

theorem searchFrom_wfFile {name kid sec : Str} (hname : plainName name)
    (hkid : plainVal kid) (hsec : plainVal sec) {post : List Sec} :
    ∀ pre : List Sec, (∀ t ∈ pre, wfOther name t) → ∀ acc : Str,
      searchFrom (patNodes name) acc (renderFile (pre ++ ⟨name, kid, sec⟩ :: post)) true
        = some (acc.reverse ++ fileHead pre, renderSection ⟨name, kid, sec⟩, fileTail post) := by
  intro pre
  induction pre with
  | nil =>
    intro _ acc
    rw [List.nil_append, renderFile_cons]
    have hr : fileTail post = [] ∨ ∃ r', fileTail post = '\n' :: r' := by
      cases post with
      | nil => exact Or.inl (by simp [fileTail])
      | cons a b => exact Or.inr ⟨renderFile (a :: b), by simp [fileTail]⟩
    have hm := matchSeq_at_target hname hkid hsec hr
    rw [searchFrom_match hm]
    have hlen : (renderSection ⟨name, kid, sec⟩ ++ fileTail post).length
        - (fileTail post).length = (renderSection ⟨name, kid, sec⟩).length := by
      simp
    rw [hlen, List.take_left]
    simp [fileHead]
  | cons t pre ih =>
    intro hwf acc
    have hwt : wfOther name t := hwf t (by simp)
    have hrf : renderFile ((t :: pre) ++ ⟨name, kid, sec⟩ :: post)
        = renderSection t ++ '\n' :: renderFile (pre ++ ⟨name, kid, sec⟩ :: post) := by
      rw [List.cons_append, renderFile_cons]
      have : (pre ++ Sec.mk name kid sec :: post).isEmpty = false := by
        cases pre <;> simp
      simp [fileTail, this]
    rw [hrf, searchFrom_skip_section hname hwt,
      ih (fun u hu => hwf u (by simp [hu])) _]
    congr 2
    cases pre with
    | nil =>
      simp [fileHead, renderFile_cons, fileTail, List.append_assoc]
    | cons v vs =>
      simp [fileHead, renderFile_cons, fileTail, List.append_assoc]

theorem compileName_plain {n : Str} (h : plainName n) : compileName n = some (lits n) := by
  induction n with
  | nil => simp [compileName, lits]
  | cons c n ih =>
    have hc : metaChar c = false := (h c (by simp)).1
    have hdot : ¬c = '.' := by
      intro hceq
      rw [hceq, show metaChar '.' = true from by decide] at hc
      exact Bool.noConfusion hc
    simp [compileName, compileChar, hdot, hc, lits, ih fun d hd => h d (by simp [hd])]

theorem sectionPattern_plain {n : Str} (h : plainName n) :
    sectionPattern n = some (patNodes n) := by
  simp [sectionPattern, compileName_plain h, patNodes]

theorem dollarSubst_no_dollar (pre m suf : Str) :
    ∀ s : Str, '$' ∉ s → dollarSubst pre m suf s = s
  | [], _ => by rw [dollarSubst]
  | [c], _ => by rw [dollarSubst]
  | c :: d :: r, h => by
    have hc : ¬c = '$' := fun hcd => h (by simp [hcd])
    rw [dollarSubst, if_neg hc,
      dollarSubst_no_dollar pre m suf (d :: r) fun hm => h (List.mem_cons_of_mem _ hm)]
termination_by s _ => s.length

theorem no_dollar_newDefaultProfile {name accessKeyId accessKeySecret : Str}
    (hname : plainName name) (hid : '$' ∉ accessKeyId) (hsec : '$' ∉ accessKeySecret) :
    '$' ∉ newDefaultProfile name accessKeyId accessKeySecret := by
  intro hm
  simp [newDefaultProfile] at hm
  rcases hm with hm | hm | hm
  · have h1 := (hname '$' hm).1
    rw [show metaChar '$' = true from by decide] at h1
    exact Bool.noConfusion h1
  · exact hid hm
  · exact hsec hm

theorem replaceCrendentials_found {name kid sec accessKeyId accessKeySecret : Str}
    (hname : plainName name) (hkid : plainVal kid) (hsec : plainVal sec)
    (hid : '$' ∉ accessKeyId) (hns : '$' ∉ accessKeySecret)
    {pre post : List Sec} (hpre : ∀ t ∈ pre, wfOther name t) :
    replaceCrendentials name accessKeyId accessKeySecret
        (renderFile (pre ++ ⟨name, kid, sec⟩ :: post))
      = renderFile (pre ++ ⟨name, accessKeyId, accessKeySecret⟩ :: post) := by
  unfold replaceCrendentials jsReplaceOnce
  rw [sectionPattern_plain hname]
  simp only [Option.map, Option.getD]
  rw [searchFrom_wfFile hname hkid hsec pre hpre []]
  simp only [Option.map, Option.getD]
  rw [dollarSubst_no_dollar _ _ _ _ (no_dollar_newDefaultProfile hname hid hns)]
  rw [renderFile_decomp]
  simp [renderSection]

theorem searchFrom_wf_absent {name : Str} (hname : plainName name) :
    ∀ ss : List Sec, (∀ t ∈ ss, wfOther name t) → ∀ pre : Str,
      searchFrom (patNodes name) pre (renderFile ss) true = none := by
  intro ss
  induction ss with
  | nil =>
    intro _ pre
    rw [renderFile]
    rw [searchFrom_step matchSeq_patNodes_nil]
    exact searchFrom_false_nil
  | cons t ss ih =>
    intro hwf pre
    have hwt : wfOther name t := hwf t (by simp)
    cases ss with
    | nil =>
      rw [renderFile]
      exact searchFrom_last_section_none hname hwt pre
    | cons u us =>
      have hrf : renderFile (t :: u :: us) = renderSection t ++ '\n' :: renderFile (u :: us) := by
        rw [renderFile_cons]
        simp [fileTail]
      rw [hrf, searchFrom_skip_section hname hwt]
      exact ih (fun v hv => hwf v (by simp [hv])) _

theorem replaceCrendentials_absent {name accessKeyId accessKeySecret : Str}
    (hname : plainName name) {ss : List Sec} (hss : ∀ t ∈ ss, wfOther name t) :
    replaceCrendentials name accessKeyId accessKeySecret (renderFile ss)
      = renderFile ss := by
  unfold replaceCrendentials jsReplaceOnce
  rw [sectionPattern_plain hname]
  simp only [Option.map, Option.getD]
  rw [searchFrom_wf_absent hname ss hss []]

theorem searchFrom_decomp {ns : List RNode} {s : Str} :
    ∀ {pre : Str} {bol : Bool} {p m suf : Str},
      searchFrom ns pre s bol = some (p, m, suf) →
      pre.reverse ++ s = p ++ m ++ suf ∧ matchSeq ns (m ++ suf) endAnchor = some suf := by
  induction s with
  | nil =>
    intro pre bol p m suf h
    cases bol with
    | false => simp [searchFrom] at h
    | true =>
      rcases hm : matchSeq ns [] endAnchor with _ | rest
      · simp [searchFrom, hm] at h
      · have hrest : rest = [] := by
          have hsx := matchSeq_endAnchor_suffix hm
          simpa using List.IsSuffix.length_le hsx
        subst hrest
        simp [searchFrom, hm] at h
        obtain ⟨h1, h2, h3⟩ := h
        subst h1; subst h2; subst h3
        simpa using hm
  | cons c s' ih =>
    intro pre bol p m suf h
    cases bol with
    | false =>
      rw [searchFrom_false_cons] at h
      obtain ⟨h1, h2⟩ := ih h
      constructor
      · rw [← h1]; simp
      · exact h2
    | true =>
      rcases hm : matchSeq ns (c :: s') endAnchor with _ | rest
      · rw [searchFrom_step hm, searchFrom_false_cons] at h
        obtain ⟨h1, h2⟩ := ih h
        constructor
        · rw [← h1]; simp
        · exact h2
      · rw [searchFrom_match hm] at h
        simp only [Option.some.injEq, Prod.mk.injEq] at h
        obtain ⟨hp, hmm, hsuf⟩ := h
        obtain ⟨t, ht⟩ := matchSeq_endAnchor_suffix hm
        have hmt : m = t := by
          rw [← hmm, ← ht]
          have hlt2 : (t ++ rest).length - rest.length = t.length := by simp
          rw [hlt2, List.take_left]
        constructor
        · rw [← hp, hmt, ← hsuf]
          simp [List.append_assoc, ht]
        · rw [hmt, ← hsuf, ht]
          exact hm

theorem matchSeq_tailNodes_le {s r : Str}
    (h : matchSeq tailNodes s endAnchor = some r) : r.length + 2 ≤ s.length := by
  rw [tailNodes, matchSeq] at h
  rcases tryFrom_exists h with ⟨j1, _, h⟩
  rcases hd : s.drop j1 with _ | ⟨c1, t1⟩
  · rw [hd, matchSeq] at h; exact absurd h (by simp)
  · rw [hd, matchSeq] at h
    by_cases hc : atomTest .dot c1
    case neg => rw [if_neg hc] at h; exact absurd h (by simp)
    rw [if_pos hc] at h
    rcases tryFrom_exists h with ⟨j2, _, h⟩
    rw [matchSeq] at h
    rcases tryFrom_exists h with ⟨j3, _, h⟩
    rcases he : (t1.drop j2).drop j3 with _ | ⟨c2, t2⟩
    · rw [he, matchSeq] at h; exact absurd h (by simp)
    · rw [he, matchSeq] at h
      by_cases hc2 : atomTest .dot c2
      case neg => rw [if_neg hc2] at h; exact absurd h (by simp)
      rw [if_pos hc2] at h
      rcases tryFrom_exists h with ⟨j4, _, h⟩
      rw [matchSeq] at h
      have hr : r = t2.drop j4 := endAnchor_some h
      have e1 : t2.length + 1 = ((t1.drop j2).drop j3).length := by rw [he]; simp
      have e2 : t1.length + 1 = (s.drop j1).length := by rw [hd]; simp
      have l1 : r.length ≤ t2.length := by rw [hr]; simp
      have l2 : ((t1.drop j2).drop j3).length ≤ t1.length := by
        simp
      have l3 : (s.drop j1).length ≤ s.length := by simp
      omega

theorem searchFrom_plain_literal {name file p m suf : Str} (_hname : plainName name)
    (h : searchFrom (patNodes name) [] file true = some (p, m, suf)) :
    file = p ++ m ++ suf ∧ ∃ m', m = '[' :: (name ++ ']' :: m') := by
  obtain ⟨hfile, hmatch⟩ := searchFrom_decomp h
  refine ⟨by simpa using hfile, ?_⟩
  rw [patNodes_eq] at hmatch
  rcases hms : m ++ suf with _ | ⟨c, rest⟩
  · rw [hms, matchSeq] at hmatch; exact absurd hmatch (by simp)
  · rw [hms, matchSeq] at hmatch
    by_cases hcb : atomTest (.lit '[') c
    case neg => rw [if_neg hcb] at hmatch; exact absurd hmatch (by simp)
    have hcc : c = '[' := by
      have := of_decide_eq_true hcb
      exact this.symm
    rw [if_pos hcb] at hmatch
    obtain ⟨rest', hrest, hm2⟩ := matchSeq_lits_some hmatch
    have hlen := matchSeq_tailNodes_le hm2
    have hms2 : m ++ suf = ('[' :: (name ++ [']'])) ++ rest' := by
      rw [hms, hcc, hrest]; simp
    have hlens : m.length + suf.length = (name.length + 2) + rest'.length := by
      have h0 := congrArg List.length hms2
      simp at h0
      omega
    have hAlen : ('[' :: (name ++ [']'])).length ≤ m.length := by
      have hhdr : ('[' :: (name ++ [']'])).length = name.length + 2 := by simp
      rw [hhdr]
      omega
    have hmfull : m = ('[' :: (name ++ [']'])) ++
        rest'.take (m.length - ('[' :: (name ++ [']'])).length) := by
      conv_lhs => rw [show m = (m ++ suf).take m.length from by rw [List.take_left]]
      rw [hms2, List.take_append_eq_append_take, List.take_of_length_le hAlen]
    refine ⟨rest'.take (m.length - ('[' :: (name ++ [']'])).length), ?_⟩
    conv_lhs => rw [hmfull]
    simp

theorem enumPhase_events {env : RunEnv} {st : St} :
    ∀ e ∈ (enumPhase env st).1, e = .credsRead ∨ e = .logError .enumFail := by
  intro e he
  unfold enumPhase at he
  repeat' split at he
  all_goals simp_all

theorem prepare_events {env : RunEnv} {st : St} :
    ∀ e ∈ (prepare env st).1,
      e = .credsRead ∨ e = .listKeysCall ∨ e = .logError .enumFail := by
  intro e he
  unfold prepare at he
  rcases hE : enumPhase env st with ⟨t0, stA, profilesRes⟩
  rw [hE] at he
  have ht0 : ∀ x ∈ t0, x = Event.credsRead ∨ x = Event.logError .enumFail :=
    fun x hx => @enumPhase_events env st x (by rw [hE]; exact hx)
  rcases profilesRes with _ | profiles
  · dsimp at he
    rcases ht0 e he with h | h <;> simp [h]
  · dsimp at he
    repeat' split at he
    all_goals (
      simp only [List.mem_append, List.mem_singleton] at he
      rcases he with h | h
      · rcases ht0 e h with h' | h' <;> simp [h']
      · simp [h])

theorem rcop_events {name accessKeyId accessKeySecret : Str} {envPath : Option Str}
    {st : St} :
    ∀ e ∈ (replaceCrendentialsOp name accessKeyId accessKeySecret envPath st).1,
      e = .credsRead ∨ e = .credsWrite ∨ (∃ p, e = .envRead p) ∨ (∃ p, e = .envWrite p)
        ∨ e = .logError .envFail := by
  intro e he
  unfold replaceCrendentialsOp at he
  simp only [fsOp] at he
  repeat' split at he
  all_goals simp_all
  all_goals tauto

theorem rcop_shape (name accessKeyId accessKeySecret : Str) (envPath : Option Str)
    (st : St) :
    ((replaceCrendentialsOp name accessKeyId accessKeySecret envPath st).2.2 = .error ()
      ∧ ((replaceCrendentialsOp name accessKeyId accessKeySecret envPath st).1 = [.credsRead]
        ∨ (replaceCrendentialsOp name accessKeyId accessKeySecret envPath st).1
            = [.credsRead, .credsWrite]))
    ∨ ((replaceCrendentialsOp name accessKeyId accessKeySecret envPath st).2.2 = .ok ()
      ∧ ((envPath = none
            ∧ (replaceCrendentialsOp name accessKeyId accessKeySecret envPath st).1
                = [.credsRead, .credsWrite])
        ∨ ∃ p, envPath = some p
            ∧ ((replaceCrendentialsOp name accessKeyId accessKeySecret envPath st).1
                  = [.credsRead, .credsWrite, .envRead p, .logError .envFail]
              ∨ (replaceCrendentialsOp name accessKeyId accessKeySecret envPath st).1
                  = [.credsRead, .credsWrite, .envRead p, .envWrite p]
              ∨ (replaceCrendentialsOp name accessKeyId accessKeySecret envPath st).1
                  = [.credsRead, .credsWrite, .envRead p, .envWrite p,
                      .logError .envFail]))) := by
  unfold replaceCrendentialsOp
  simp only [fsOp]
  repeat' split
  all_goals simp_all

theorem rcop_ok {name accessKeyId accessKeySecret : Str} {envPath : Option Str}
    {st : St} {f : Str}
    (hcreds : st.creds = some f) (h1 : st.opIdx ∉ st.fsFails)
    (h2 : st.opIdx + 1 ∉ st.fsFails) :
    (replaceCrendentialsOp name accessKeyId accessKeySecret envPath st).2.2 = .ok ()
    ∧ (replaceCrendentialsOp name accessKeyId accessKeySecret envPath st).2.1.creds
        = some (replaceCrendentials name accessKeyId accessKeySecret f) := by
  unfold replaceCrendentialsOp
  simp only [fsOp]
  have e1 : decide (st.opIdx ∉ st.fsFails) = true := by simpa using h1
  have e2 : decide (st.opIdx + 1 ∉ st.fsFails) = true := by simpa using h2
  simp only [hcreds, e1, e2, if_true]
  repeat' split
  all_goals simp_all

theorem rcop_none_no_env {name accessKeyId accessKeySecret : Str} {st : St} :
    ∀ p, Event.envRead p ∉ (replaceCrendentialsOp name accessKeyId accessKeySecret none st).1 := by
  intro p hp
  unfold replaceCrendentialsOp at hp
  simp only [fsOp] at hp
  repeat' split at hp
  all_goals simp_all

theorem rcop_envRead_iff {name accessKeyId accessKeySecret : Str} {envPath : Option Str}
    {st : St} :
    (∃ p, Event.envRead p ∈ (replaceCrendentialsOp name accessKeyId accessKeySecret envPath st).1)
      ↔ envPath.isSome
        ∧ (replaceCrendentialsOp name accessKeyId accessKeySecret envPath st).2.2 = .ok () := by
  rcases rcop_shape name accessKeyId accessKeySecret envPath st with ⟨hres, htr | htr⟩ |
    ⟨hres, ⟨hnone, htr⟩ | ⟨p, hsome, htr | htr | htr⟩⟩
  all_goals rw [htr, hres]
  all_goals simp_all

theorem rotateLoop_events {envPath : Option Str} :
    ∀ (ps : List ResolvedProfile) (creates : List (Option (Str × Str))) (st : St),
      ∀ e ∈ (rotateLoop envPath ps creates st).1,
        e = .createCall ∨ e = .credsRead ∨ e = .credsWrite ∨ (∃ p, e = .envRead p)
          ∨ (∃ p, e = .envWrite p) ∨ e = .logError .envFail
          ∨ e = .logError .replFail := by
  intro ps
  induction ps with
  | nil => intro creates st e he; simp [rotateLoop] at he
  | cons p ps ih =>
    intro creates st e he
    rcases creates with _ | ⟨c, cs⟩
    · simp [rotateLoop] at he
      simp [he]
    · rcases c with _ | ⟨accessKeyId, accessKeySecret⟩
      · simp [rotateLoop] at he
        simp [he]
      · rw [rotateLoop] at he
        rcases hR : replaceCrendentialsOp p.name accessKeyId accessKeySecret envPath st
          with ⟨tr, st1, res⟩
        rw [hR] at he
        dsimp only at he
        rcases res with u | u
        all_goals (
          dsimp only at he
          rcases hL : rotateLoop envPath ps cs st1 with ⟨tr2, st2, rot, ok⟩
          rw [hL] at he
          dsimp only at he
          rcases List.mem_cons.1 he with h | h
          · simp [h]
          · rcases List.mem_append.1 h with h | h
            · rcases List.mem_append.1 h with h | h
              · have h2 : e ∈ (replaceCrendentialsOp p.name accessKeyId
                    accessKeySecret envPath st).1 := by rw [hR]; exact h
                have := @rcop_events p.name accessKeyId accessKeySecret envPath st e h2
                tauto
              · simp at h
                try simp [h]
            · have h2 : e ∈ (rotateLoop envPath ps cs st1).1 := by rw [hL]; exact h
              have := ih cs st1 e h2
              tauto)

theorem rotateLoop_no_delete {envPath : Option Str} {ps : List ResolvedProfile}
    {creates : List (Option (Str × Str))} {st : St} {k : Str} :
    Event.deleteCall k ∉ (rotateLoop envPath ps creates st).1 := by
  intro h
  have := rotateLoop_events ps creates st _ h
  simp_all

theorem rotateLoop_none_no_env :
    ∀ (ps : List ResolvedProfile) (creates : List (Option (Str × Str))) (st : St)
      (p : Str), Event.envRead p ∉ (rotateLoop none ps creates st).1 := by
  intro ps
  induction ps with
  | nil => intro creates st p h; simp [rotateLoop] at h
  | cons q ps ih =>
    intro creates st p h
    rcases creates with _ | ⟨c, cs⟩
    · simp [rotateLoop] at h
    · rcases c with _ | ⟨accessKeyId, accessKeySecret⟩
      · simp [rotateLoop] at h
      · rw [rotateLoop] at h
        rcases hR : replaceCrendentialsOp q.name accessKeyId accessKeySecret none st
          with ⟨tr, st1, res⟩
        rw [hR] at h
        dsimp only at h
        rcases res with u | u
        all_goals (
          dsimp only at h
          rcases hL : rotateLoop none ps cs st1 with ⟨tr2, st2, rot, ok⟩
          rw [hL] at h
          dsimp only at h
          rcases List.mem_cons.1 h with h | h
          · simp at h
          · rcases List.mem_append.1 h with h | h
            · rcases List.mem_append.1 h with h | h
              · have h2 : Event.envRead p ∈ (replaceCrendentialsOp q.name accessKeyId
                    accessKeySecret none st).1 := by rw [hR]; exact h
                exact rcop_none_no_env p h2
              · simp at h
            · have h2 : Event.envRead p ∈ (rotateLoop none ps cs st1).1 := by
                rw [hL]; exact h
              exact ih cs st1 p h2)

theorem run_exitEarly {env : RunEnv} {creds0 : Option Str} {envs0 : List (Str × Str)}
    {fsFails0 : List Nat} {o : Outcome}
    (h : (prepare env ⟨creds0, envs0, fsFails0, 0⟩).2.2 = .exitEarly o) :
    run env creds0 envs0 fsFails0
      = ⟨(prepare env ⟨creds0, envs0, fsFails0, 0⟩).1,
          (prepare env ⟨creds0, envs0, fsFails0, 0⟩).2.1, [], o⟩ := by
  unfold run
  rcases hP : prepare env ⟨creds0, envs0, fsFails0, 0⟩ with ⟨t1, st1, pr⟩
  rw [hP] at h
  dsimp only at h
  rw [h]

theorem run_toomany {env : RunEnv} {creds0 : Option Str} {envs0 : List (Str × Str)}
    {fsFails0 : List Nat} {sel : List ResolvedProfile}
    (hsel : (prepare env ⟨creds0, envs0, fsFails0, 0⟩).2.2 = .proceed sel)
    (h : 2 < sel.length) :
    run env creds0 envs0 fsFails0
      = ⟨(prepare env ⟨creds0, envs0, fsFails0, 0⟩).1 ++ [.logError .tooMany],
          (prepare env ⟨creds0, envs0, fsFails0, 0⟩).2.1, [], .completed⟩ := by
  unfold run
  rcases hP : prepare env ⟨creds0, envs0, fsFails0, 0⟩ with ⟨t1, st1, pr⟩
  rw [hP] at hsel
  dsimp only at hsel
  rw [hsel]
  dsimp only
  rw [if_pos h]

theorem run_zero {env : RunEnv} {creds0 : Option Str} {envs0 : List (Str × Str)}
    {fsFails0 : List Nat} {sel : List ResolvedProfile}
    (hsel : (prepare env ⟨creds0, envs0, fsFails0, 0⟩).2.2 = .proceed sel)
    (h : sel.length = 0) :
    run env creds0 envs0 fsFails0
      = ⟨(prepare env ⟨creds0, envs0, fsFails0, 0⟩).1,
          (prepare env ⟨creds0, envs0, fsFails0, 0⟩).2.1, [], .completed⟩ := by
  unfold run
  rcases hP : prepare env ⟨creds0, envs0, fsFails0, 0⟩ with ⟨t1, st1, pr⟩
  rw [hP] at hsel
  dsimp only at hsel
  rw [hsel]
  dsimp only
  rw [if_neg (by omega), if_pos h]

theorem run_rotate {env : RunEnv} {creds0 : Option Str} {envs0 : List (Str × Str)}
    {fsFails0 : List Nat} {sel : List ResolvedProfile}
    (hsel : (prepare env ⟨creds0, envs0, fsFails0, 0⟩).2.2 = .proceed sel)
    (hle : ¬ 2 < sel.length) (hne : sel.length ≠ 0) :
    run env creds0 envs0 fsFails0
      = (if (rotateLoop (if sel.length = 1 then envValOf env.argsEnv else none) sel
              env.creates (prepare env ⟨creds0, envs0, fsFails0, 0⟩).2.1).2.2.2 then
          ⟨(prepare env ⟨creds0, envs0, fsFails0, 0⟩).1
              ++ (rotateLoop (if sel.length = 1 then envValOf env.argsEnv else none) sel
                  env.creates (prepare env ⟨creds0, envs0, fsFails0, 0⟩).2.1).1
              ++ sel.map (fun p => Event.deleteCall p.accessKeyId),
            (rotateLoop (if sel.length = 1 then envValOf env.argsEnv else none) sel
                env.creates (prepare env ⟨creds0, envs0, fsFails0, 0⟩).2.1).2.1,
            (rotateLoop (if sel.length = 1 then envValOf env.argsEnv else none) sel
                env.creates (prepare env ⟨creds0, envs0, fsFails0, 0⟩).2.1).2.2.1,
            .completed⟩
        else
          ⟨(prepare env ⟨creds0, envs0, fsFails0, 0⟩).1
              ++ (rotateLoop (if sel.length = 1 then envValOf env.argsEnv else none) sel
                  env.creates (prepare env ⟨creds0, envs0, fsFails0, 0⟩).2.1).1,
            (rotateLoop (if sel.length = 1 then envValOf env.argsEnv else none) sel
                env.creates (prepare env ⟨creds0, envs0, fsFails0, 0⟩).2.1).2.1,
            (rotateLoop (if sel.length = 1 then envValOf env.argsEnv else none) sel
                env.creates (prepare env ⟨creds0, envs0, fsFails0, 0⟩).2.1).2.2.1,
            .crashed⟩) := by
  unfold run
  rcases hP : prepare env ⟨creds0, envs0, fsFails0, 0⟩ with ⟨t1, st1, pr⟩
  rw [hP] at hsel
  dsimp only at hsel
  rw [hsel]
  dsimp only
  rw [if_neg hle, if_neg hne]
  rcases hL : rotateLoop (if sel.length = 1 then envValOf env.argsEnv else none) sel
      env.creates st1 with ⟨t2, st2, rot, ok⟩
  rcases ok with _ | _ <;> dsimp only <;> rfl

theorem length_le_of_getElem?_not_mem {l₁ l₂ : List Event} {i : Nat} {a : Event}
    (h : (l₁ ++ l₂)[i]? = some a) (ha : a ∉ l₁) : l₁.length ≤ i := by
  by_contra hi
  push_neg at hi
  rw [List.getElem?_append_left hi] at h
  exact ha (List.getElem?_mem h)

theorem getElem?_lt_of_not_mem_right {l₁ l₂ : List Event} {i : Nat} {a : Event}
    (h : (l₁ ++ l₂)[i]? = some a) (ha : a ∉ l₂) : i < l₁.length := by
  by_contra hi
  push_neg at hi
  rw [List.getElem?_append_right hi] at h
  exact ha (List.getElem?_mem h)

theorem run_deletes_last {env : RunEnv} {creds0 : Option Str} {envs0 : List (Str × Str)}
    {fsFails0 : List Nat}
    (hout : (run env creds0 envs0 fsFails0).outcome = .completed) :
    ∀ (i j : Nat) (k : Str) (e : Event),
      (run env creds0 envs0 fsFails0).trace[i]? = some (Event.deleteCall k) →
      (run env creds0 envs0 fsFails0).trace[j]? = some e →
      (e = .createCall ∨ e = .credsWrite) → j < i := by
  intro i j k e hi hj he
  rcases hpr : (prepare env ⟨creds0, envs0, fsFails0, 0⟩).2.2 with o | sel
  · rw [run_exitEarly hpr] at hi
    dsimp at hi
    have h2 := prepare_events _ (List.getElem?_mem hi)
    simp at h2
  · by_cases h2 : 2 < sel.length
    · rw [run_toomany hpr h2] at hi
      dsimp at hi
      rcases List.mem_append.1 (List.getElem?_mem hi) with hm | hm
      · have := prepare_events _ hm
        simp at this
      · simp at hm
    · by_cases h0 : sel.length = 0
      · rw [run_zero hpr h0] at hi
        dsimp at hi
        have := prepare_events _ (List.getElem?_mem hi)
        simp at this
      · rw [run_rotate hpr h2 h0] at hi hj hout
        rcases hB : (rotateLoop (if sel.length = 1 then envValOf env.argsEnv else none) sel
            env.creates (prepare env ⟨creds0, envs0, fsFails0, 0⟩).2.1).2.2.2
        · rw [hB] at hout
          simp at hout
        · rw [hB] at hi hj
          rw [if_pos rfl] at hi hj
          dsimp only at hi hj
          have hdel : Event.deleteCall k ∉
              (prepare env ⟨creds0, envs0, fsFails0, 0⟩).1
                ++ (rotateLoop (if sel.length = 1 then envValOf env.argsEnv else none) sel
                    env.creates (prepare env ⟨creds0, envs0, fsFails0, 0⟩).2.1).1 := by
            intro hmem
            rcases List.mem_append.1 hmem with hm | hm
            · have := prepare_events _ hm
              simp at this
            · exact rotateLoop_no_delete hm
          have hiA := length_le_of_getElem?_not_mem hi hdel
          have hjA : j < ((prepare env ⟨creds0, envs0, fsFails0, 0⟩).1
              ++ (rotateLoop (if sel.length = 1 then envValOf env.argsEnv else none) sel
                  env.creates (prepare env ⟨creds0, envs0, fsFails0, 0⟩).2.1).1).length := by
            apply getElem?_lt_of_not_mem_right hj
            intro hmem
            rcases List.mem_map.1 hmem with ⟨q, _, hq⟩
            rcases he with he | he <;> rw [he] at hq <;> simp at hq
          omega

theorem run_single_shape {env : RunEnv} {creds0 : Option Str} {envs0 : List (Str × Str)}
    {fsFails0 : List Nat} {sel : List ResolvedProfile}
    (hout : (run env creds0 envs0 fsFails0).outcome = .completed)
    (hsel : (prepare env ⟨creds0, envs0, fsFails0, 0⟩).2.2 = .proceed sel)
    (hone : sel.length = 1)
    (hnoerr : ∀ msg, Event.logError msg ∉ (run env creds0 envs0 fsFails0).trace) :
    ∃ t0 k, (∀ e ∈ t0, mutating e = false) ∧
      ((run env creds0 envs0 fsFails0).trace
          = t0 ++ [.createCall, .credsRead, .credsWrite, .deleteCall k]
        ∨ ∃ p, (run env creds0 envs0 fsFails0).trace
          = t0 ++ [.createCall, .credsRead, .credsWrite, .envRead p, .envWrite p,
              .deleteCall k]) := by
  obtain ⟨q, hq⟩ := List.length_eq_one.1 hone
  subst hq
  have hle : ¬ 2 < ([q] : List ResolvedProfile).length := by simp
  have hne : ([q] : List ResolvedProfile).length ≠ 0 := by simp
  rw [run_rotate hsel hle hne] at hout hnoerr ⊢
  have hE : (if ([q] : List ResolvedProfile).length = 1 then envValOf env.argsEnv
      else none) = envValOf env.argsEnv := by simp
  rw [hE] at hout hnoerr ⊢
  rcases hc : env.creates with _ | ⟨c, cs⟩
  · rw [hc] at hout
    rw [show rotateLoop (envValOf env.argsEnv) [q] []
        (prepare env ⟨creds0, envs0, fsFails0, 0⟩).2.1
      = ([.createCall], (prepare env ⟨creds0, envs0, fsFails0, 0⟩).2.1, [], false)
      from by rw [rotateLoop]] at hout
    simp at hout
  · rcases c with _ | ⟨accessKeyId, accessKeySecret⟩
    · rw [hc] at hout
      rw [show rotateLoop (envValOf env.argsEnv) [q] (none :: cs)
          (prepare env ⟨creds0, envs0, fsFails0, 0⟩).2.1
        = ([.createCall], (prepare env ⟨creds0, envs0, fsFails0, 0⟩).2.1, [], false)
        from by rw [rotateLoop]] at hout
      simp at hout
    · rcases hR : replaceCrendentialsOp q.name accessKeyId accessKeySecret
        (envValOf env.argsEnv) (prepare env ⟨creds0, envs0, fsFails0, 0⟩).2.1
        with ⟨tr, st', res⟩
      have hL : rotateLoop (envValOf env.argsEnv) [q]
          (some (accessKeyId, accessKeySecret) :: cs)
          (prepare env ⟨creds0, envs0, fsFails0, 0⟩).2.1
        = (.createCall :: (tr ++ (match res with
              | .error _ => [Event.logError .replFail]
              | .ok _ => ([] : List Event)) ++ []),
           st', [⟨q.name, accessKeyId, accessKeySecret⟩], true) := by
        rw [rotateLoop, hR]
        dsimp only
        rw [rotateLoop]
      rw [hc] at hout hnoerr
      rw [hL] at hout hnoerr ⊢
      rw [if_pos rfl] at hout hnoerr ⊢
      dsimp only at hout hnoerr ⊢
      rcases res with u | u
      · exfalso
        refine hnoerr LogMsg.replFail ?_
        simp
      · have hshape := rcop_shape q.name accessKeyId accessKeySecret
          (envValOf env.argsEnv) (prepare env ⟨creds0, envs0, fsFails0, 0⟩).2.1
        rw [hR] at hshape
        dsimp only at hshape
        rcases hshape with ⟨hres, _⟩ | ⟨_, hbr⟩
        · exact absurd hres (by simp)
        · have ht0 : ∀ e ∈ (prepare env ⟨creds0, envs0, fsFails0, 0⟩).1,
              mutating e = false := by
            intro e hme
            rcases prepare_events _ hme with h | h | h <;> simp [h, mutating]
          rcases hbr with ⟨henone, htr⟩ | ⟨p, hpsome, htr | htr | htr⟩
          · refine ⟨(prepare env ⟨creds0, envs0, fsFails0, 0⟩).1, q.accessKeyId, ht0, Or.inl ?_⟩
            rw [htr]
            simp
          · exfalso
            refine hnoerr LogMsg.envFail ?_
            rw [htr]
            simp
          · refine ⟨(prepare env ⟨creds0, envs0, fsFails0, 0⟩).1, q.accessKeyId, ht0,
              Or.inr ⟨p, ?_⟩⟩
            rw [htr]
            simp
          · exfalso
            refine hnoerr LogMsg.envFail ?_
            rw [htr]
            simp

theorem run_envRead_iff {env : RunEnv} {creds0 : Option Str} {envs0 : List (Str × Str)}
    {fsFails0 : List Nat} {sel : List ResolvedProfile}
    (hsel : (prepare env ⟨creds0, envs0, fsFails0, 0⟩).2.2 = .proceed sel)
    (hnc : (run env creds0 envs0 fsFails0).outcome ≠ .crashed) :
    (∃ p, Event.envRead p ∈ (run env creds0 envs0 fsFails0).trace)
      ↔ (sel.length = 1 ∧ (envValOf env.argsEnv).isSome
          ∧ Event.logError .replFail ∉ (run env creds0 envs0 fsFails0).trace) := by
  have hpre1 : ∀ p, Event.envRead p ∉ (prepare env ⟨creds0, envs0, fsFails0, 0⟩).1 := by
    intro p hp
    have := prepare_events _ hp
    simp at this
  have hpre2 : Event.logError LogMsg.replFail ∉ (prepare env ⟨creds0, envs0, fsFails0, 0⟩).1 := by
    intro hp
    have := prepare_events _ hp
    simp at this
  by_cases h2 : 2 < sel.length
  · rw [run_toomany hsel h2]
    dsimp only
    constructor
    · rintro ⟨p, hp⟩
      rcases List.mem_append.1 hp with hp | hp
      · exact absurd hp (hpre1 p)
      · simp at hp
    · rintro ⟨h1, _⟩
      omega
  · by_cases h0 : sel.length = 0
    · rw [run_zero hsel h0]
      dsimp only
      constructor
      · rintro ⟨p, hp⟩
        exact absurd hp (hpre1 p)
      · rintro ⟨h1, _⟩
        omega
    · rw [run_rotate hsel h2 h0] at hnc ⊢
      rcases hB : (rotateLoop (if sel.length = 1 then envValOf env.argsEnv else none) sel
          env.creates (prepare env ⟨creds0, envs0, fsFails0, 0⟩).2.1).2.2.2
      · rw [hB] at hnc
        simp at hnc
      · rw [hB] at hnc
        rw [if_pos rfl] at hnc ⊢
        dsimp only at hnc ⊢
        by_cases h1 : sel.length = 1
        · obtain ⟨q, hq⟩ := List.length_eq_one.1 h1
          subst hq
          have hE : (if ([q] : List ResolvedProfile).length = 1 then envValOf env.argsEnv
              else none) = envValOf env.argsEnv := by simp
          rw [hE] at hB ⊢
          rcases hc : env.creates with _ | ⟨c, cs⟩
          · rw [hc] at hB
            rw [show rotateLoop (envValOf env.argsEnv) [q] []
                (prepare env ⟨creds0, envs0, fsFails0, 0⟩).2.1
              = ([.createCall], (prepare env ⟨creds0, envs0, fsFails0, 0⟩).2.1, [], false)
              from by rw [rotateLoop]] at hB
            simp at hB
          · rcases c with _ | ⟨accessKeyId, accessKeySecret⟩
            · rw [hc] at hB
              rw [show rotateLoop (envValOf env.argsEnv) [q] (none :: cs)
                  (prepare env ⟨creds0, envs0, fsFails0, 0⟩).2.1
                = ([.createCall], (prepare env ⟨creds0, envs0, fsFails0, 0⟩).2.1, [], false)
                from by rw [rotateLoop]] at hB
              simp at hB
            · rcases hR : replaceCrendentialsOp q.name accessKeyId accessKeySecret
                (envValOf env.argsEnv) (prepare env ⟨creds0, envs0, fsFails0, 0⟩).2.1
                with ⟨tr, st', res⟩
              have hL : rotateLoop (envValOf env.argsEnv) [q]
                  (some (accessKeyId, accessKeySecret) :: cs)
                  (prepare env ⟨creds0, envs0, fsFails0, 0⟩).2.1
                = (.createCall :: (tr ++ (match res with
                      | .error _ => [Event.logError .replFail]
                      | .ok _ => ([] : List Event)) ++ []),
                   st', [⟨q.name, accessKeyId, accessKeySecret⟩], true) := by
                rw [rotateLoop, hR]
                dsimp only
                rw [rotateLoop]
              rw [hL]
              dsimp only
              have hshape := rcop_shape q.name accessKeyId accessKeySecret
                (envValOf env.argsEnv) (prepare env ⟨creds0, envs0, fsFails0, 0⟩).2.1
              rw [hR] at hshape
              dsimp only at hshape
              rcases res with u | u
              · dsimp only
                rcases hshape with ⟨_, htr | htr⟩ | ⟨hres, _⟩
                · rw [htr]
                  constructor
                  · rintro ⟨p, hp⟩
                    simp [hpre1 p] at hp
                  · rintro ⟨_, _, hnf⟩
                    exact absurd (by simp) hnf
                · rw [htr]
                  constructor
                  · rintro ⟨p, hp⟩
                    simp [hpre1 p] at hp
                  · rintro ⟨_, _, hnf⟩
                    exact absurd (by simp) hnf
                · exact absurd hres (by simp)
              · dsimp only
                rcases hshape with ⟨hres, _⟩ | ⟨_, hbr⟩
                · exact absurd hres (by simp)
                · rcases hbr with ⟨henone, htr⟩ | ⟨p, hpsome, htr | htr | htr⟩
                  · rw [htr]
                    constructor
                    · rintro ⟨p, hp⟩
                      simp [hpre1 p] at hp
                    · rintro ⟨_, hs, _⟩
                      rw [henone] at hs
                      simp at hs
                  all_goals (
                    rw [htr, hpsome]
                    constructor
                    · intro _
                      refine ⟨rfl, by simp, ?_⟩
                      intro hmem
                      simp [hpre2] at hmem
                    · intro _
                      exact ⟨p, by simp⟩)
        · have hlen2 : sel.length = 2 := by omega
          have hE : (if sel.length = 1 then envValOf env.argsEnv else none) = none := by
            simp [h1]
          rw [hE] at hB ⊢
          constructor
          · rintro ⟨p, hp⟩
            rcases List.mem_append.1 hp with hp | hp
            · rcases List.mem_append.1 hp with hp | hp
              · exact absurd hp (hpre1 p)
              · exact absurd hp (rotateLoop_none_no_env _ _ _ p)
            · simp at hp
          · rintro ⟨hc1, _⟩
            omega

theorem enumPhase_none_iff {env : RunEnv} {creds0 : Option Str} {envs0 : List (Str × Str)}
    {fsFails0 : List Nat} :
    (enumPhase env ⟨creds0, envs0, fsFails0, 0⟩).2.2 = none
      ↔ (env.argsProfiles = true ∧ enumFails creds0 fsFails0) := by
  unfold enumPhase
  rcases hA : env.argsProfiles
  · simp [enumFails]
  · by_cases h0 : (0 : Nat) ∈ fsFails0
    · simp [fsOp, h0, enumFails]
    · rcases creds0 with _ | c
      · simp [fsOp, h0, enumFails]
      · simp [fsOp, h0, enumFails]

theorem prepare_exit1_iff {env : RunEnv} {creds0 : Option Str} {envs0 : List (Str × Str)}
    {fsFails0 : List Nat} :
    (prepare env ⟨creds0, envs0, fsFails0, 0⟩).2.2 = .exitEarly .exit1
      ↔ (env.argsProfiles = true ∧ enumFails creds0 fsFails0) := by
  have hiff := @enumPhase_none_iff env creds0 envs0 fsFails0
  unfold prepare
  rcases hE : enumPhase env ⟨creds0, envs0, fsFails0, 0⟩ with ⟨t0, stA, pr⟩
  rw [hE] at hiff
  dsimp only at hiff
  rcases pr with _ | profiles
  · dsimp only
    simp only [true_iff]
    exact hiff.1 rfl
  · have hRf : ¬(env.argsProfiles = true ∧ enumFails creds0 fsFails0) := by
      intro h
      have := hiff.2 h
      simp at this
    dsimp only
    repeat' split
    all_goals simp [hRf]

theorem run_exit1_iff {env : RunEnv} {creds0 : Option Str} {envs0 : List (Str × Str)}
    {fsFails0 : List Nat} :
    (run env creds0 envs0 fsFails0).outcome = .exit1
      ↔ (env.argsProfiles = true ∧ enumFails creds0 fsFails0) := by
  rw [← prepare_exit1_iff]
  rcases hpr : (prepare env ⟨creds0, envs0, fsFails0, 0⟩).2.2 with o | sel
  · rw [run_exitEarly hpr]
    dsimp only
    simp
  · constructor
    · intro h
      exfalso
      by_cases h2 : 2 < sel.length
      · rw [run_toomany hpr h2] at h
        simp at h
      · by_cases h0 : sel.length = 0
        · rw [run_zero hpr h0] at h
          simp at h
        · rw [run_rotate hpr h2 h0] at h
          rcases hB : (rotateLoop (if sel.length = 1 then envValOf env.argsEnv else none)
              sel env.creates (prepare env ⟨creds0, envs0, fsFails0, 0⟩).2.1).2.2.2
          · rw [hB] at h
            simp at h
          · rw [hB] at h
            rw [if_pos rfl] at h
            simp at h
    · intro h
      simp at h

theorem run_cancel_exit0 {env : RunEnv} {creds0 : Option Str} {envs0 : List (Str × Str)}
    {fsFails0 : List Nat} {ks : Option (List AccessKeyMeta)} {aps : List ResolvedProfile}
    {c : Str}
    (hA : env.argsProfiles = true) (hcreds : creds0 = some c) (h0 : (0 : Nat) ∉ fsFails0)
    (hlk : env.listKeysRes = .ok ks)
    (hga : getAllProfiles env.cfg ks (getAllCredentialProfiles c) = some aps)
    (hsel : env.selection = none) :
    (run env creds0 envs0 fsFails0).outcome = .exit0 := by
  have hEP : enumPhase env ⟨creds0, envs0, fsFails0, 0⟩
      = ([Event.credsRead], ⟨creds0, envs0, fsFails0, 1⟩,
          some (getAllCredentialProfiles c)) := by
    unfold enumPhase
    simp [hA, fsOp, h0, hcreds]
  have hprep : (prepare env ⟨creds0, envs0, fsFails0, 0⟩).2.2 = .exitEarly .exit0 := by
    unfold prepare
    rw [hEP]
    dsimp only
    rw [hlk]
    try dsimp only
    rw [hga]
    try dsimp only
    by_cases hemp : aps.isEmpty
    · rw [if_pos hemp]
    · rw [if_neg hemp, hA]
      simp only [if_true]
      rw [hsel]
  rw [run_exitEarly hprep]

theorem getAllProfiles_sound {cfg : Str → Option Str} {keys : Option (List AccessKeyMeta)}
    {names : List Str} {res : List ResolvedProfile}
    (hres : getAllProfiles cfg keys names = some res) :
    ∀ r ∈ res, ∃ ks, keys = some ks ∧ ∃ k ∈ ks,
      k.accessKeyId = r.accessKeyId ∧ r.createDate = k.createDate
        ∧ k.createDate.isSome := by
  intro r hr
  unfold getAllProfiles at hres
  rcases hRL : resolveLocal cfg names with _ | resolved
  · rw [hRL] at hres
    simp at hres
  · rw [hRL] at hres
    simp only [Option.map_some', Option.some.injEq] at hres
    subst hres
    unfold joinRemote at hr
    rw [List.mem_filter] at hr
    obtain ⟨hmem, hsome⟩ := hr
    rcases List.mem_map.1 hmem with ⟨nk, _, hnk⟩
    subst hnk
    dsimp only at hsome ⊢
    rcases keys with _ | ks
    · simp at hsome
    · refine ⟨ks, rfl, ?_⟩
      simp only [Option.some_bind] at hsome ⊢
      rcases hf : ks.find? (fun k => decide (k.accessKeyId = nk.2)) with _ | k
      · rw [hf] at hsome
        simp at hsome
      · rw [hf] at hsome
        refine ⟨k, List.mem_of_find?_eq_some hf, ?_, ?_, ?_⟩
        · have := List.find?_some hf
          simpa using this
        · rw [hf]
          simp
        · simpa using hsome

theorem run_oversize_nomut {env : RunEnv} {creds0 : Option Str} {envs0 : List (Str × Str)}
    {fsFails0 : List Nat} {sel : List ResolvedProfile}
    (hsel : (prepare env ⟨creds0, envs0, fsFails0, 0⟩).2.2 = .proceed sel)
    (hsz : 2 < sel.length ∨ sel.length = 0) :
    (run env creds0 envs0 fsFails0).outcome = .completed
    ∧ (∀ e ∈ (run env creds0 envs0 fsFails0).trace, mutating e = false)
    ∧ (2 < sel.length → Event.logError .tooMany ∈ (run env creds0 envs0 fsFails0).trace) := by
  rcases hsz with h | h
  · rw [run_toomany hsel h]
    dsimp only
    refine ⟨rfl, ?_, ?_⟩
    · intro e he
      rcases List.mem_append.1 he with he | he
      · rcases prepare_events _ he with h' | h' | h' <;> simp [h', mutating]
      · simp at he
        simp [he, mutating]
    · intro _
      simp
  · rw [run_zero hsel h]
    dsimp only
    refine ⟨rfl, ?_, ?_⟩
    · intro e he
      rcases prepare_events _ he with h' | h' | h' <;> simp [h', mutating]
    · intro h2
      omega

theorem run_envfail_helper (cfgF : Str → Option Str) (p oldId : Str) (d : Nat)
    (accessKeyId accessKeySecret : Str) (cs : List (Option (Str × Str)))
    (outFlag : Bool) (selO : Option (List Str)) (file : Str)
    (hcfg : cfgF "default".data = some oldId) :
    (run (envC7 cfgF p oldId d accessKeyId accessKeySecret cs outFlag selO)
        (some file) [] []).outcome = .completed
    ∧ Event.logError .envFail
        ∈ (run (envC7 cfgF p oldId d accessKeyId accessKeySecret cs outFlag selO)
            (some file) [] []).trace
    ∧ (run (envC7 cfgF p oldId d accessKeyId accessKeySecret cs outFlag selO)
          (some file) [] []).finalSt.creds
        = some (replaceCrendentials "default".data accessKeyId accessKeySecret file)
    ∧ Event.deleteCall oldId
        ∈ (run (envC7 cfgF p oldId d accessKeyId accessKeySecret cs outFlag selO)
            (some file) [] []).trace := by
  have hEP : enumPhase (envC7 cfgF p oldId d accessKeyId accessKeySecret cs outFlag selO)
      ⟨some file, [], [], 0⟩
      = ([], ⟨some file, [], [], 0⟩, some ["default".data]) := by
    unfold enumPhase envC7
    simp
  have hga : getAllProfiles cfgF (some [⟨oldId, some d⟩]) ["default".data]
      = some [⟨"default".data, oldId, some d⟩] := by
    simp [getAllProfiles, resolveLocal, joinRemote, hcfg, List.find?]
  have hprep : prepare (envC7 cfgF p oldId d accessKeyId accessKeySecret cs outFlag selO)
      ⟨some file, [], [], 0⟩
      = ([Event.listKeysCall], ⟨some file, [], [], 0⟩,
          .proceed [⟨"default".data, oldId, some d⟩]) := by
    unfold prepare
    rw [hEP]
    dsimp only [envC7]
    rw [hga]
    dsimp only
    rw [if_neg (by simp)]
    simp
  have hRC : replaceCrendentialsOp "default".data accessKeyId accessKeySecret (some p)
      ⟨some file, [], [], 0⟩
      = ([.credsRead, .credsWrite, .envRead p, .logError .envFail],
          ⟨some (replaceCrendentials "default".data accessKeyId accessKeySecret file),
            [], [], 3⟩, .ok ()) := by
    unfold replaceCrendentialsOp
    simp [fsOp, lookupEnv]
  have hL : rotateLoop (some p) [⟨"default".data, oldId, some d⟩]
      (some (accessKeyId, accessKeySecret) :: cs) ⟨some file, [], [], 0⟩
      = (.createCall :: ([.credsRead, .credsWrite, .envRead p, .logError .envFail]
            ++ [] ++ []),
          ⟨some (replaceCrendentials "default".data accessKeyId accessKeySecret file),
            [], [], 3⟩,
          [⟨"default".data, accessKeyId, accessKeySecret⟩], true) := by
    rw [rotateLoop]
    dsimp only
    rw [hRC]
    dsimp only
    rw [rotateLoop]
  have hsel : (prepare (envC7 cfgF p oldId d accessKeyId accessKeySecret cs outFlag selO)
      ⟨some file, [], [], 0⟩).2.2 = .proceed [⟨"default".data, oldId, some d⟩] := by
    rw [hprep]
  have hrun := run_rotate hsel (by simp) (by simp)
  rw [hprep] at hrun
  dsimp only at hrun
  have hEV : envValOf (envC7 cfgF p oldId d accessKeyId accessKeySecret cs outFlag
      selO).argsEnv = some p := by
    simp [envC7, envValOf]
  have hone : ([⟨"default".data, oldId, some d⟩] : List ResolvedProfile).length = 1 := rfl
  rw [if_pos hone, hEV] at hrun
  have hCR : (envC7 cfgF p oldId d accessKeyId accessKeySecret cs outFlag selO).creates
      = some (accessKeyId, accessKeySecret) :: cs := rfl
  rw [hCR, hL] at hrun
  dsimp only at hrun
  rw [if_pos rfl] at hrun
  rw [hrun]
  refine ⟨rfl, by simp, rfl, by simp⟩

theorem splitOnTerms_noTerm {l : Str} (hl : ∀ c ∈ l, isLineTerm c = false) :
    splitOnTerms l = [l] := by
  induction l with
  | nil => rfl
  | cons c l ih =>
    have hc : isLineTerm c = false := hl c (by simp)
    rw [splitOnTerms]
    simp only [hc, Bool.false_eq_true, if_false]
    rw [ih fun d hd => hl d (by simp [hd])]
    simp

theorem splitOnTerms_append {l : Str} (hl : ∀ c ∈ l, isLineTerm c = false) :
    ∀ r : Str, splitOnTerms (l ++ '\n' :: r) = l :: splitOnTerms r := by
  induction l with
  | nil =>
    intro r
    rw [List.nil_append, splitOnTerms]
    simp [show isLineTerm '\n' = true from by decide]
  | cons c l ih =>
    intro r
    have hc : isLineTerm c = false := hl c (by simp)
    rw [List.cons_append, splitOnTerms]
    simp only [hc, Bool.false_eq_true, if_false]
    rw [ih (fun d hd => hl d (by simp [hd])) r]
    simp

theorem hdrLine_noTerm {n : Str} (hn : plainName n) :
    ∀ c ∈ '[' :: (n ++ [']']), isLineTerm c = false := by
  intro c hc
  rcases List.mem_cons.1 hc with hc | hc
  · subst hc; decide
  · rcases List.mem_append.1 hc with hc | hc
    · exact (hn c hc).2
    · simp at hc; subst hc; decide

theorem isHeaderLine_hdr {n : Str} : isHeaderLine ('[' :: (n ++ [']'])) = true := by
  unfold isHeaderLine
  have h1 : 2 ≤ ('[' :: (n ++ [']'])).length := by simp
  have h2 : ('[' :: (n ++ [']'])).getLast? = some ']' := by
    rw [show ('[' :: (n ++ [']'])) = ('[' :: n) ++ [']'] from by simp]
    exact List.getLast?_concat _
  simp [h1, h2]

theorem isHeaderLine_value {x : Str} : isHeaderLine ('a' :: x) = false := by
  unfold isHeaderLine
  simp

theorem getAllCredentialProfiles_render :
    ∀ ss : List Sec, (∀ t ∈ ss, plainName t.name ∧ plainVal t.keyId ∧ plainVal t.secret) →
      getAllCredentialProfiles (renderFile ss) = ss.map (fun t => t.name) := by
  intro ss
  induction ss with
  | nil =>
    intro _
    rw [renderFile]
    rfl
  | cons t ss ih =>
    intro hwf
    obtain ⟨hn, hk, hs⟩ := hwf t (by simp)
    have hL1 := hdrLine_noTerm hn
    have hL2 := noTerm_keyLine (fun c hc => hk c hc)
    have hL3 := noTerm_secretLine (fun c hc => hs c hc)
    cases ss with
    | nil =>
      rw [renderFile]
      rw [show renderSection t = ('[' :: (t.name ++ [']'])) ++ '\n' ::
          (('a' :: ("ws_access_key_id=".data ++ t.keyId)) ++ '\n' ::
            ('a' :: ("ws_secret_access_key=".data ++ t.secret))) from by
        have h0 : renderSection t = renderSection t ++ [] := by simp
        rw [h0, renderSection_append]
        simp]
      unfold getAllCredentialProfiles
      rw [splitOnTerms_append hL1, splitOnTerms_append hL2, splitOnTerms_noTerm hL3]
      simp [isHeaderLine_hdr, isHeaderLine_value]
    | cons u us =>
      have hrf : renderFile (t :: u :: us)
          = renderSection t ++ '\n' :: renderFile (u :: us) := by
        rw [renderFile_cons]
        simp [fileTail]
      rw [hrf]
      rw [show renderSection t ++ '\n' :: renderFile (u :: us)
          = ('[' :: (t.name ++ [']'])) ++ '\n' ::
            (('a' :: ("ws_access_key_id=".data ++ t.keyId)) ++ '\n' ::
              (('a' :: ("ws_secret_access_key=".data ++ t.secret)) ++ '\n' ::
                renderFile (u :: us))) from by
        rw [renderSection_append]
        simp]
      unfold getAllCredentialProfiles at ih ⊢
      rw [splitOnTerms_append hL1, splitOnTerms_append hL2, splitOnTerms_append hL3]
      rw [List.filter_cons, List.filter_cons, List.filter_cons]
      simp only [isHeaderLine_hdr, isHeaderLine_value, Bool.false_eq_true, if_false,
        if_true]
      rw [List.map_cons]
      rw [ih fun v hv => hwf v (by simp [hv])]
      simp

theorem run_partialfail_helper (cfgF : Str → Option Str) (p1 p2 old1 old2 : Str)
    (d1 d2 : Nat) (id1 s1 id2 s2 os1 os2 : Str) (outFlag : Bool)
    (hp1 : plainName p1) (hp2 : plainName p2)
    (ho1 : plainVal old1) (ho2 : plainVal old2) (hs1 : plainVal os1) (hs2 : plainVal os2)
    (hcfg1 : cfgF p1 = some old1) (hcfg2 : cfgF p2 = some old2)
    (hne : old1 ≠ old2) :
    (run (envC8 cfgF p1 p2 old1 old2 d1 d2 id1 s1 id2 s2 outFlag)
        (some (renderFile [⟨p1, old1, os1⟩, ⟨p2, old2, os2⟩])) [] [1]).outcome
      = .completed
    ∧ Event.logError .replFail
        ∈ (run (envC8 cfgF p1 p2 old1 old2 d1 d2 id1 s1 id2 s2 outFlag)
            (some (renderFile [⟨p1, old1, os1⟩, ⟨p2, old2, os2⟩])) [] [1]).trace
    ∧ (run (envC8 cfgF p1 p2 old1 old2 d1 d2 id1 s1 id2 s2 outFlag)
          (some (renderFile [⟨p1, old1, os1⟩, ⟨p2, old2, os2⟩])) [] [1]).rotated
        = [⟨p1, id1, s1⟩, ⟨p2, id2, s2⟩]
    ∧ Event.deleteCall old1
        ∈ (run (envC8 cfgF p1 p2 old1 old2 d1 d2 id1 s1 id2 s2 outFlag)
            (some (renderFile [⟨p1, old1, os1⟩, ⟨p2, old2, os2⟩])) [] [1]).trace
    ∧ Event.deleteCall old2
        ∈ (run (envC8 cfgF p1 p2 old1 old2 d1 d2 id1 s1 id2 s2 outFlag)
            (some (renderFile [⟨p1, old1, os1⟩, ⟨p2, old2, os2⟩])) [] [1]).trace
    ∧ (run (envC8 cfgF p1 p2 old1 old2 d1 d2 id1 s1 id2 s2 outFlag)
          (some (renderFile [⟨p1, old1, os1⟩, ⟨p2, old2, os2⟩])) [] [1]).finalSt.creds
        = some (replaceCrendentials p2 id2 s2
            (renderFile [⟨p1, old1, os1⟩, ⟨p2, old2, os2⟩])) := by
  have hwf2 : ∀ t ∈ [(⟨p1, old1, os1⟩ : Sec), ⟨p2, old2, os2⟩],
      plainName t.name ∧ plainVal t.keyId ∧ plainVal t.secret := by
    intro t ht
    simp only [List.mem_cons, List.not_mem_nil, or_false] at ht
    rcases ht with ht | ht
    · subst ht
      exact ⟨hp1, ho1, hs1⟩
    · subst ht
      exact ⟨hp2, ho2, hs2⟩
  have hprof : getAllCredentialProfiles (renderFile [⟨p1, old1, os1⟩, ⟨p2, old2, os2⟩])
      = [p1, p2] := by
    rw [getAllCredentialProfiles_render _ hwf2]
    simp
  have hEP : enumPhase (envC8 cfgF p1 p2 old1 old2 d1 d2 id1 s1 id2 s2 outFlag)
      ⟨some (renderFile [⟨p1, old1, os1⟩, ⟨p2, old2, os2⟩]), [], [1], 0⟩
      = ([Event.credsRead],
          ⟨some (renderFile [⟨p1, old1, os1⟩, ⟨p2, old2, os2⟩]), [], [1], 1⟩,
          some [p1, p2]) := by
    unfold enumPhase envC8
    simp [fsOp, hprof]
  have hga : getAllProfiles cfgF (some [⟨old1, some d1⟩, ⟨old2, some d2⟩]) [p1, p2]
      = some [⟨p1, old1, some d1⟩, ⟨p2, old2, some d2⟩] := by
    simp [getAllProfiles, resolveLocal, joinRemote, hcfg1, hcfg2, List.find?, hne]
  have hprep : prepare (envC8 cfgF p1 p2 old1 old2 d1 d2 id1 s1 id2 s2 outFlag)
      ⟨some (renderFile [⟨p1, old1, os1⟩, ⟨p2, old2, os2⟩]), [], [1], 0⟩
      = ([Event.credsRead, Event.listKeysCall],
          ⟨some (renderFile [⟨p1, old1, os1⟩, ⟨p2, old2, os2⟩]), [], [1], 1⟩,
          .proceed [⟨p1, old1, some d1⟩, ⟨p2, old2, some d2⟩]) := by
    unfold prepare
    rw [hEP]
    dsimp only [envC8]
    rw [hga]
    dsimp only
    rw [if_neg (by simp)]
    simp
  have hRC1 : replaceCrendentialsOp p1 id1 s1 none
      ⟨some (renderFile [⟨p1, old1, os1⟩, ⟨p2, old2, os2⟩]), [], [1], 1⟩
      = ([.credsRead],
          ⟨some (renderFile [⟨p1, old1, os1⟩, ⟨p2, old2, os2⟩]), [], [1], 2⟩,
          .error ()) := by
    unfold replaceCrendentialsOp
    simp [fsOp]
  have hRC2 : replaceCrendentialsOp p2 id2 s2 none
      ⟨some (renderFile [⟨p1, old1, os1⟩, ⟨p2, old2, os2⟩]), [], [1], 2⟩
      = ([.credsRead, .credsWrite],
          ⟨some (replaceCrendentials p2 id2 s2
              (renderFile [⟨p1, old1, os1⟩, ⟨p2, old2, os2⟩])), [], [1], 4⟩,
          .ok ()) := by
    unfold replaceCrendentialsOp
    simp [fsOp]
  have hL : rotateLoop none [⟨p1, old1, some d1⟩, ⟨p2, old2, some d2⟩]
      [some (id1, s1), some (id2, s2)]
      ⟨some (renderFile [⟨p1, old1, os1⟩, ⟨p2, old2, os2⟩]), [], [1], 1⟩
      = (.createCall :: ([.credsRead] ++ [.logError .replFail]
            ++ (.createCall :: ([.credsRead, .credsWrite] ++ [] ++ []))),
          ⟨some (replaceCrendentials p2 id2 s2
              (renderFile [⟨p1, old1, os1⟩, ⟨p2, old2, os2⟩])), [], [1], 4⟩,
          [⟨p1, id1, s1⟩, ⟨p2, id2, s2⟩], true) := by
    rw [rotateLoop]
    dsimp only
    rw [hRC1]
    dsimp only
    rw [rotateLoop]
    dsimp only
    rw [hRC2]
    dsimp only
    rw [rotateLoop]
  have hsel : (prepare (envC8 cfgF p1 p2 old1 old2 d1 d2 id1 s1 id2 s2 outFlag)
      ⟨some (renderFile [⟨p1, old1, os1⟩, ⟨p2, old2, os2⟩]), [], [1], 0⟩).2.2
      = .proceed [⟨p1, old1, some d1⟩, ⟨p2, old2, some d2⟩] := by
    rw [hprep]
  have hrun := run_rotate hsel (by simp) (by simp)
  rw [hprep] at hrun
  dsimp only at hrun
  have htwo : ¬(([⟨p1, old1, some d1⟩, ⟨p2, old2, some d2⟩] :
      List ResolvedProfile).length = 1) := by simp
  rw [if_neg htwo] at hrun
  have hCR : (envC8 cfgF p1 p2 old1 old2 d1 d2 id1 s1 id2 s2 outFlag).creates
      = [some (id1, s1), some (id2, s2)] := rfl
  rw [hCR, hL] at hrun
  dsimp only at hrun
  rw [if_pos rfl] at hrun
  rw [hrun]
  refine ⟨rfl, by simp, rfl, by simp, by simp, rfl⟩

theorem rcop_absent_helper {name accessKeyId accessKeySecret : Str} {ss : List Sec}
    {st : St} (hname : plainName name) (hss : ∀ t ∈ ss, wfOther name t)
    (hcreds : st.creds = some (renderFile ss))
    (h1 : st.opIdx ∉ st.fsFails) (h2 : st.opIdx + 1 ∉ st.fsFails) :
    (replaceCrendentialsOp name accessKeyId accessKeySecret none st).2.2 = .ok ()
    ∧ (replaceCrendentialsOp name accessKeyId accessKeySecret none st).2.1.creds = st.creds
    ∧ (replaceCrendentialsOp name accessKeyId accessKeySecret none st).1
        = [.credsRead, .credsWrite] := by
  obtain ⟨hok, hcreds'⟩ := rcop_ok hcreds h1 h2
  refine ⟨hok, ?_, ?_⟩
  · rw [hcreds', replaceCrendentials_absent hname hss, hcreds]
  · rcases rcop_shape name accessKeyId accessKeySecret none st with ⟨hres, _⟩ | ⟨_, hbr⟩
    · rw [hok] at hres
      exact absurd hres (by simp)
    · rcases hbr with ⟨_, htr⟩ | ⟨p, hp, _⟩
      · exact htr
      · exact absurd hp (by simp)

/-- C1: for every credentials file made of well-formed sections and
containing a section for profile `P`, `replaceCrendentials P id secret`
yields the file in which `P`'s block is exactly the header `[P]` followed by
the new `aws_access_key_id=` and `aws_secret_access_key=` lines, and every
other profile's block is byte-identical to before. -/
theorem claim_C1 (name kid sec accessKeyId accessKeySecret : Str)
    (pre post : List Sec) (hname : plainName name) (hkid : plainVal kid)
    (hsec : plainVal sec) (hid : '$' ∉ accessKeyId) (hns : '$' ∉ accessKeySecret)
    (hpre : ∀ t ∈ pre, wfOther name t) :
    replaceCrendentials name accessKeyId accessKeySecret
        (renderFile (pre ++ ⟨name, kid, sec⟩ :: post))
      = renderFile (pre ++ ⟨name, accessKeyId, accessKeySecret⟩ :: post) :=
  replaceCrendentials_found hname hkid hsec hid hns hpre

theorem claim_C1_witness :
    replaceCrendentials "default".data "AKIANEW".data "SECNEW".data
        (renderFile ([⟨"other".data, "A".data, "B".data⟩]
          ++ ⟨"default".data, "AKIAOLD".data, "SECOLD".data⟩ :: []))
      = renderFile ([⟨"other".data, "A".data, "B".data⟩]
          ++ ⟨"default".data, "AKIANEW".data, "SECNEW".data⟩ :: []) :=
  claim_C1 "default".data "AKIAOLD".data "SECOLD".data "AKIANEW".data "SECNEW".data
    [⟨"other".data, "A".data, "B".data⟩] [] (by decide) (by decide) (by decide)
    (by decide) (by decide) (by decide)

/-- C2 (amended): replacing a profile that has no section in the credentials
file leaves the content unchanged but signals no error at all: the pure
substitution is the identity, and the operation reads and (identically)
rewrites the file and resolves successfully — no NotFoundError exists in the
program. -/
theorem claim_C2 (name accessKeyId accessKeySecret : Str) (ss : List Sec) (st : St)
    (hname : plainName name) (hss : ∀ t ∈ ss, wfOther name t)
    (hcreds : st.creds = some (renderFile ss))
    (h1 : st.opIdx ∉ st.fsFails) (h2 : st.opIdx + 1 ∉ st.fsFails) :
    replaceCrendentials name accessKeyId accessKeySecret (renderFile ss) = renderFile ss
    ∧ (replaceCrendentialsOp name accessKeyId accessKeySecret none st).2.2 = .ok ()
    ∧ (replaceCrendentialsOp name accessKeyId accessKeySecret none st).2.1.creds = st.creds
    ∧ (replaceCrendentialsOp name accessKeyId accessKeySecret none st).1
        = [.credsRead, .credsWrite] :=
  ⟨replaceCrendentials_absent hname hss, rcop_absent_helper hname hss hcreds h1 h2⟩

theorem claim_C2_witness :
    replaceCrendentials "default".data "NEW".data "NEWS".data
        (renderFile [⟨"other".data, "AKIA".data, "S".data⟩])
      = renderFile [⟨"other".data, "AKIA".data, "S".data⟩]
    ∧ (replaceCrendentialsOp "default".data "NEW".data "NEWS".data none stC2x).2.2 = .ok ()
    ∧ (replaceCrendentialsOp "default".data "NEW".data "NEWS".data none stC2x).2.1.creds
        = stC2x.creds
    ∧ (replaceCrendentialsOp "default".data "NEW".data "NEWS".data none stC2x).1
        = [.credsRead, .credsWrite] :=
  claim_C2 "default".data "NEW".data "NEWS".data
    [⟨"other".data, "AKIA".data, "S".data⟩] stC2x
    (by decide) (by decide) rfl (by decide) (by decide)

/-- C2 (counterexample to the claimed NotFoundError): replacing the absent
profile `default` in a file holding only `[other]` resolves with `.ok ()` —
the promise fulfills, nothing is thrown or logged — while the content is left
unchanged; the write still happens, so no error path distinguishes this case. -/
theorem claim_C2_counterexample :
    (replaceCrendentialsOp "default".data "NEW".data "NEWS".data none stC2x).2.2
        = .ok ()
    ∧ (replaceCrendentialsOp "default".data "NEW".data "NEWS".data none stC2x).2.1.creds
        = stC2x.creds
    ∧ (replaceCrendentialsOp "default".data "NEW".data "NEWS".data none stC2x).1
        = [.credsRead, .credsWrite] := by
  refine ⟨rfl, by decide, rfl⟩

/-- C3: in every run that completes normally, each `deleteCall` appears in
the trace strictly after every `createCall` and every `credsWrite`; and in an
error-free single-profile run the mutating suffix of the trace is exactly one
create, one credentials read/write, optionally one env read/write, then one
delete, in that order. -/
theorem claim_C3 (env : RunEnv) (creds0 : Option Str) (envs0 : List (Str × Str))
    (fsFails0 : List Nat)
    (hout : (run env creds0 envs0 fsFails0).outcome = .completed) :
    (∀ (i j : Nat) (k : Str) (e : Event),
        (run env creds0 envs0 fsFails0).trace[i]? = some (Event.deleteCall k) →
        (run env creds0 envs0 fsFails0).trace[j]? = some e →
        (e = .createCall ∨ e = .credsWrite) → j < i)
    ∧ (∀ sel, (prepare env ⟨creds0, envs0, fsFails0, 0⟩).2.2 = .proceed sel →
        sel.length = 1 →
        (∀ msg, Event.logError msg ∉ (run env creds0 envs0 fsFails0).trace) →
        ∃ t0 k, (∀ e ∈ t0, mutating e = false) ∧
          ((run env creds0 envs0 fsFails0).trace
              = t0 ++ [.createCall, .credsRead, .credsWrite, .deleteCall k]
            ∨ ∃ p, (run env creds0 envs0 fsFails0).trace
              = t0 ++ [.createCall, .credsRead, .credsWrite, .envRead p, .envWrite p,
                  .deleteCall k])) :=
  ⟨run_deletes_last hout,
   fun _ hsel hone hnoerr => run_single_shape hout hsel hone hnoerr⟩

theorem claim_C3_witness :
    ∃ t0 k, (∀ e ∈ t0, mutating e = false) ∧
      ((run envC5x (some fileC5x) [] []).trace
          = t0 ++ [.createCall, .credsRead, .credsWrite, .deleteCall k]
        ∨ ∃ p, (run envC5x (some fileC5x) [] []).trace
          = t0 ++ [.createCall, .credsRead, .credsWrite, .envRead p, .envWrite p,
              .deleteCall k]) :=
  (claim_C3 envC5x (some fileC5x) [] [] (by decide)).2
    [⟨"default".data, "AKIAOLD".data, some 3⟩] (by decide) (by decide)
    (by intro msg; rcases msg <;> decide)

/-- C4: whenever the selection that reaches the size checks has more than two
profiles or none, the run terminates normally with no mutating call in its
whole trace (no create, no file write, no delete), logging the
more-than-2 error message in the oversize case. -/
theorem claim_C4 (env : RunEnv) (creds0 : Option Str) (envs0 : List (Str × Str))
    (fsFails0 : List Nat) (sel : List ResolvedProfile)
    (hsel : (prepare env ⟨creds0, envs0, fsFails0, 0⟩).2.2 = .proceed sel)
    (hsz : 2 < sel.length ∨ sel.length = 0) :
    (run env creds0 envs0 fsFails0).outcome = .completed
    ∧ (∀ e ∈ (run env creds0 envs0 fsFails0).trace, mutating e = false)
    ∧ (2 < sel.length →
        Event.logError .tooMany ∈ (run env creds0 envs0 fsFails0).trace) :=
  run_oversize_nomut hsel hsz

theorem claim_C4_witness :
    (run envC4x (some fileC4x) [] []).outcome = .completed
    ∧ (∀ e ∈ (run envC4x (some fileC4x) [] []).trace, mutating e = false)
    ∧ (2 < ([⟨"one".data, "AK1".data, some 1⟩, ⟨"two".data, "AK2".data, some 2⟩,
          ⟨"three".data, "AK3".data, some 3⟩] : List ResolvedProfile).length →
        Event.logError .tooMany ∈ (run envC4x (some fileC4x) [] []).trace) :=
  claim_C4 envC4x (some fileC4x) [] []
    [⟨"one".data, "AK1".data, some 1⟩, ⟨"two".data, "AK2".data, some 2⟩,
      ⟨"three".data, "AK3".data, some 3⟩]
    (by decide) (Or.inl (by decide))

/-- C5 (amended): in every non-crashing run, an env-file read is attempted
iff exactly one profile was selected AND the `--env` option carries a path
(`-e` given, or a string value) AND that profile's credentials replacement
did not fail; selection size one alone does not suffice. -/
theorem claim_C5 (env : RunEnv) (creds0 : Option Str) (envs0 : List (Str × Str))
    (fsFails0 : List Nat) (sel : List ResolvedProfile)
    (hsel : (prepare env ⟨creds0, envs0, fsFails0, 0⟩).2.2 = .proceed sel)
    (hnc : (run env creds0 envs0 fsFails0).outcome ≠ .crashed) :
    (∃ p, Event.envRead p ∈ (run env creds0 envs0 fsFails0).trace)
      ↔ (sel.length = 1 ∧ (envValOf env.argsEnv).isSome
          ∧ Event.logError .replFail ∉ (run env creds0 envs0 fsFails0).trace) :=
  run_envRead_iff hsel hnc

theorem claim_C5_witness :
    (∃ p, Event.envRead p ∈ (run envC5x (some fileC5x) [] []).trace)
      ↔ (([(⟨"default".data, "AKIAOLD".data, some 3⟩ : ResolvedProfile)].length = 1
          ∧ (envValOf envC5x.argsEnv).isSome
          ∧ Event.logError .replFail ∉ (run envC5x (some fileC5x) [] []).trace)) :=
  claim_C5 envC5x (some fileC5x) [] []
    [⟨"default".data, "AKIAOLD".data, some 3⟩] (by decide) (by decide)

/-- C5 (counterexample to attempted-iff-one-selected): a run rotating exactly
one profile, with no `--env` flag, completes without ever touching an env
file — the trace holds no `envRead` — so selection size one does not imply an
env replacement attempt. -/
theorem claim_C5_counterexample :
    (prepare envC5x ⟨some fileC5x, [], [], 0⟩).2.2
        = Prep.proceed [⟨"default".data, "AKIAOLD".data, some 3⟩]
    ∧ (run envC5x (some fileC5x) [] []).outcome = .completed
    ∧ (∀ p, Event.envRead p ∉ (run envC5x (some fileC5x) [] []).trace) := by
  refine ⟨by decide, by decide, ?_⟩
  have htr : (run envC5x (some fileC5x) [] []).trace
      = [.listKeysCall, .createCall, .credsRead, .credsWrite,
          .deleteCall "AKIAOLD".data] := by decide
  intro p hp
  rw [htr] at hp
  simp at hp

/-- C6: every profile in a successful `getAllProfiles` result carries the
creation date of a remote key whose id equals the profile's locally
configured access key id; consequently a profile whose local key id matches
no remote key (no such remote entry exists) cannot appear in the result. -/
theorem claim_C6 (cfg : Str → Option Str) (keys : Option (List AccessKeyMeta))
    (names : List Str) (res : List ResolvedProfile)
    (hres : getAllProfiles cfg keys names = some res) :
    ∀ r ∈ res, ∃ ks, keys = some ks ∧ ∃ k ∈ ks,
      k.accessKeyId = r.accessKeyId ∧ r.createDate = k.createDate
        ∧ k.createDate.isSome :=
  getAllProfiles_sound hres

theorem claim_C6_witness :
    ∃ ks, (some [(⟨"K1".data, some 9⟩ : AccessKeyMeta)]) = some ks ∧ ∃ k ∈ ks,
      k.accessKeyId = (⟨"a".data, "K1".data, some 9⟩ : ResolvedProfile).accessKeyId
      ∧ (⟨"a".data, "K1".data, some 9⟩ : ResolvedProfile).createDate = k.createDate
      ∧ k.createDate.isSome :=
  claim_C6 cfgC6x (some [⟨"K1".data, some 9⟩]) ["a".data, "b".data]
    [⟨"a".data, "K1".data, some 9⟩] (by decide)
    ⟨"a".data, "K1".data, some 9⟩ (by decide)

/-- C7: when the env file is missing (its read throws), the failure is
caught and only logged: the single-profile run still completes, the
credentials file keeps the replacement already written for the profile, and
the old key's deletion is still issued. -/
theorem claim_C7 (cfgF : Str → Option Str) (p oldId : Str) (d : Nat)
    (accessKeyId accessKeySecret : Str) (cs : List (Option (Str × Str)))
    (outFlag : Bool) (selO : Option (List Str)) (file : Str)
    (hcfg : cfgF "default".data = some oldId) :
    (run (envC7 cfgF p oldId d accessKeyId accessKeySecret cs outFlag selO)
        (some file) [] []).outcome = .completed
    ∧ Event.logError .envFail
        ∈ (run (envC7 cfgF p oldId d accessKeyId accessKeySecret cs outFlag selO)
            (some file) [] []).trace
    ∧ (run (envC7 cfgF p oldId d accessKeyId accessKeySecret cs outFlag selO)
          (some file) [] []).finalSt.creds
        = some (replaceCrendentials "default".data accessKeyId accessKeySecret file)
    ∧ Event.deleteCall oldId
        ∈ (run (envC7 cfgF p oldId d accessKeyId accessKeySecret cs outFlag selO)
            (some file) [] []).trace :=
  run_envfail_helper cfgF p oldId d accessKeyId accessKeySecret cs outFlag selO file hcfg

theorem claim_C7_witness :
    (run (envC7 cfgC6x ".env".data "KX".data 5 "NEW".data "NEWS".data [] false none)
        (some fileC5x) [] []).outcome = .completed
    ∧ Event.logError .envFail
        ∈ (run (envC7 cfgC6x ".env".data "KX".data 5 "NEW".data "NEWS".data [] false none)
            (some fileC5x) [] []).trace
    ∧ (run (envC7 cfgC6x ".env".data "KX".data 5 "NEW".data "NEWS".data [] false none)
          (some fileC5x) [] []).finalSt.creds
        = some (replaceCrendentials "default".data "NEW".data "NEWS".data fileC5x)
    ∧ Event.deleteCall "KX".data
        ∈ (run (envC7 cfgC6x ".env".data "KX".data 5 "NEW".data "NEWS".data [] false none)
            (some fileC5x) [] []).trace :=
  claim_C7 cfgC6x ".env".data "KX".data 5 "NEW".data "NEWS".data [] false none
    fileC5x (by decide)

/-- C8: in a two-profile run where the first profile's credentials
replacement throws (the file read fails mid-loop), the failure is logged and
the second profile is still processed — its replacement lands in the file —
and both profiles are recorded as rotated, so both old keys are deleted. -/
theorem claim_C8 (cfgF : Str → Option Str) (p1 p2 old1 old2 : Str)
    (d1 d2 : Nat) (id1 s1 id2 s2 os1 os2 : Str) (outFlag : Bool)
    (hp1 : plainName p1) (hp2 : plainName p2)
    (ho1 : plainVal old1) (ho2 : plainVal old2) (hs1 : plainVal os1) (hs2 : plainVal os2)
    (hcfg1 : cfgF p1 = some old1) (hcfg2 : cfgF p2 = some old2)
    (hne : old1 ≠ old2) :
    (run (envC8 cfgF p1 p2 old1 old2 d1 d2 id1 s1 id2 s2 outFlag)
        (some (renderFile [⟨p1, old1, os1⟩, ⟨p2, old2, os2⟩])) [] [1]).outcome
      = .completed
    ∧ Event.logError .replFail
        ∈ (run (envC8 cfgF p1 p2 old1 old2 d1 d2 id1 s1 id2 s2 outFlag)
            (some (renderFile [⟨p1, old1, os1⟩, ⟨p2, old2, os2⟩])) [] [1]).trace
    ∧ (run (envC8 cfgF p1 p2 old1 old2 d1 d2 id1 s1 id2 s2 outFlag)
          (some (renderFile [⟨p1, old1, os1⟩, ⟨p2, old2, os2⟩])) [] [1]).rotated
        = [⟨p1, id1, s1⟩, ⟨p2, id2, s2⟩]
    ∧ Event.deleteCall old1
        ∈ (run (envC8 cfgF p1 p2 old1 old2 d1 d2 id1 s1 id2 s2 outFlag)
            (some (renderFile [⟨p1, old1, os1⟩, ⟨p2, old2, os2⟩])) [] [1]).trace
    ∧ Event.deleteCall old2
        ∈ (run (envC8 cfgF p1 p2 old1 old2 d1 d2 id1 s1 id2 s2 outFlag)
            (some (renderFile [⟨p1, old1, os1⟩, ⟨p2, old2, os2⟩])) [] [1]).trace
    ∧ (run (envC8 cfgF p1 p2 old1 old2 d1 d2 id1 s1 id2 s2 outFlag)
          (some (renderFile [⟨p1, old1, os1⟩, ⟨p2, old2, os2⟩])) [] [1]).finalSt.creds
        = some (replaceCrendentials p2 id2 s2
            (renderFile [⟨p1, old1, os1⟩, ⟨p2, old2, os2⟩])) :=
  run_partialfail_helper cfgF p1 p2 old1 old2 d1 d2 id1 s1 id2 s2 os1 os2 outFlag
    hp1 hp2 ho1 ho2 hs1 hs2 hcfg1 hcfg2 hne

theorem claim_C8_witness :
    (run (envC8 cfgC8x "one".data "two".data "AK1".data "AK2".data 1 2
          "N1".data "NS1".data "N2".data "NS2".data false)
        (some (renderFile [⟨"one".data, "AK1".data, "S1".data⟩,
          ⟨"two".data, "AK2".data, "S2".data⟩])) [] [1]).outcome = .completed
    ∧ Event.logError .replFail
        ∈ (run (envC8 cfgC8x "one".data "two".data "AK1".data "AK2".data 1 2
              "N1".data "NS1".data "N2".data "NS2".data false)
            (some (renderFile [⟨"one".data, "AK1".data, "S1".data⟩,
              ⟨"two".data, "AK2".data, "S2".data⟩])) [] [1]).trace
    ∧ (run (envC8 cfgC8x "one".data "two".data "AK1".data "AK2".data 1 2
            "N1".data "NS1".data "N2".data "NS2".data false)
          (some (renderFile [⟨"one".data, "AK1".data, "S1".data⟩,
            ⟨"two".data, "AK2".data, "S2".data⟩])) [] [1]).rotated
        = [⟨"one".data, "N1".data, "NS1".data⟩, ⟨"two".data, "N2".data, "NS2".data⟩]
    ∧ Event.deleteCall "AK1".data
        ∈ (run (envC8 cfgC8x "one".data "two".data "AK1".data "AK2".data 1 2
              "N1".data "NS1".data "N2".data "NS2".data false)
            (some (renderFile [⟨"one".data, "AK1".data, "S1".data⟩,
              ⟨"two".data, "AK2".data, "S2".data⟩])) [] [1]).trace
    ∧ Event.deleteCall "AK2".data
        ∈ (run (envC8 cfgC8x "one".data "two".data "AK1".data "AK2".data 1 2
              "N1".data "NS1".data "N2".data "NS2".data false)
            (some (renderFile [⟨"one".data, "AK1".data, "S1".data⟩,
              ⟨"two".data, "AK2".data, "S2".data⟩])) [] [1]).trace
    ∧ (run (envC8 cfgC8x "one".data "two".data "AK1".data "AK2".data 1 2
            "N1".data "NS1".data "N2".data "NS2".data false)
          (some (renderFile [⟨"one".data, "AK1".data, "S1".data⟩,
            ⟨"two".data, "AK2".data, "S2".data⟩])) [] [1]).finalSt.creds
        = some (replaceCrendentials "two".data "N2".data "NS2".data
            (renderFile [⟨"one".data, "AK1".data, "S1".data⟩,
              ⟨"two".data, "AK2".data, "S2".data⟩])) :=
  claim_C8 cfgC8x "one".data "two".data "AK1".data "AK2".data 1 2
    "N1".data "NS1".data "N2".data "NS2".data "S1".data "S2".data false
    (by decide) (by decide) (by decide) (by decide) (by decide) (by decide)
    (by decide) (by decide) (by decide)

/-- C9: a run's exit code is 1 exactly when `-p` was given and the local
profile enumeration fails (credentials file unreadable); every completed or
`process.exit(0)` outcome — normal completion, cancelled selection, "nothing
to rotate" — carries exit code 0; in particular a `-p` run whose enumeration
and resolution succeed but whose interactive selection is cancelled exits 0. -/
theorem claim_C9 (env : RunEnv) (creds0 : Option Str) (envs0 : List (Str × Str))
    (fsFails0 : List Nat) :
    ((run env creds0 envs0 fsFails0).outcome = .exit1
        ↔ (env.argsProfiles = true ∧ enumFails creds0 fsFails0))
    ∧ (exitCode (run env creds0 envs0 fsFails0).outcome = some 1
        ↔ (env.argsProfiles = true ∧ enumFails creds0 fsFails0))
    ∧ ((run env creds0 envs0 fsFails0).outcome = .completed
        ∨ (run env creds0 envs0 fsFails0).outcome = .exit0 →
        exitCode (run env creds0 envs0 fsFails0).outcome = some 0)
    ∧ (∀ (ks : Option (List AccessKeyMeta)) (aps : List ResolvedProfile) (c : Str),
        env.argsProfiles = true → creds0 = some c → (0 : Nat) ∉ fsFails0 →
        env.listKeysRes = .ok ks →
        getAllProfiles env.cfg ks (getAllCredentialProfiles c) = some aps →
        env.selection = none →
        (run env creds0 envs0 fsFails0).outcome = .exit0) := by
  have h1 := @run_exit1_iff env creds0 envs0 fsFails0
  refine ⟨h1, ?_, ?_, ?_⟩
  · rw [← h1]
    rcases ho : (run env creds0 envs0 fsFails0).outcome <;> simp [exitCode]
  · intro h
    rcases h with h | h <;> rw [h] <;> rfl
  · intro ks aps c hA hc h0 hlk hga hsel
    exact run_cancel_exit0 hA hc h0 hlk hga hsel

theorem claim_C9_witness :
    (run envC9x none [] []).outcome = .exit1
    ∧ exitCode (run envC9x none [] []).outcome = some 1
    ∧ exitCode (run envC5x (some fileC5x) [] []).outcome = some 0 :=
  ⟨(claim_C9 envC9x none [] []).1.2 ⟨rfl, Or.inr rfl⟩,
   (claim_C9 envC9x none [] []).2.1.2 ⟨rfl, Or.inr rfl⟩,
   (claim_C9 envC5x (some fileC5x) [] []).2.2.1 (Or.inl (by decide))⟩

/-- C10: the profile name is spliced unescaped into the section pattern.  A
name free of regex metacharacters still behaves literally: any match of the
compiled pattern starts with the exact header `[name]`.  But a name holding
a metacharacter is interpreted as a pattern: replacing profile `a.b` rewrites
a section headed `[axb]`, whose header is not literally `[a.b]`. -/
theorem claim_C10 :
    (∀ (name file p m suf : Str) (ns : List RNode), plainName name →
        sectionPattern name = some ns →
        searchFrom ns [] file true = some (p, m, suf) →
        file = p ++ m ++ suf ∧ ∃ m', m = '[' :: (name ++ ']' :: m'))
    ∧ replaceCrendentials "a.b".data "AKIANEW".data "SECNEW".data
          "[axb]\naws_access_key_id=OLD\naws_secret_access_key=OLDSEC".data
        = "[a.b]\naws_access_key_id=AKIANEW\naws_secret_access_key=SECNEW".data := by
  constructor
  · intro name file p m suf ns hplain hsp hsearch
    rw [sectionPattern_plain hplain] at hsp
    injection hsp with hsp
    subst hsp
    exact searchFrom_plain_literal hplain hsearch
  · decide

theorem claim_C10_witness :
    ("[default]\nA\nB".data : Str)
        = ([] : Str) ++ "[default]\nA\nB".data ++ ([] : Str)
    ∧ ∃ m', ("[default]\nA\nB".data : Str) = '[' :: ("default".data ++ ']' :: m') :=
  claim_C10.1 "default".data "[default]\nA\nB".data [] "[default]\nA\nB".data []
    (patNodes "default".data) (by decide) (by decide) (by decide)
